import Mathlib

/-!
# Yavalath (src/app.js): rule engine and move selection

A shallow embedding of the class `YavalathGame` of `src/app.js`.

* A cell object `{ q, r, state, row, index }` is a `Cell`; `this.cells` is a
  `List Cell`.  JavaScript passes cell objects by reference and every cell that
  the program hands around is an element of `this.cells`, so a cell argument is
  the position of that object in `this.cells` (a `Nat`).
* A method that writes to `this` takes the fields it reads and returns the fields
  it writes (explicit state passing).
* The `while (true)` loop of `countInDirection` is run with fuel; a method that
  depends on it returns an `Option`, `none` standing for "did not return"
  (fuel exhausted, or a cell reference that points at no cell object).
* DOM writes are left out, except `messageEl.className`, kept as
  `messageClass` because it is the only stored trace of the reason given to
  `endGame`.  The `setTimeout` callbacks are separate later calls of `npcMove`.
-/

namespace Yavalath

/-- Stone colors: the strings 'B', 'W' and 'G' of the source. -/
inductive Color where
  | B
  | W
  | G
deriving DecidableEq

/-- A cell object `{ q, r, state, row, index }`; `state = none` is `null`. -/
structure Cell where
  q : Int
  r : Int
  state : Option Color
  row : Nat
  index : Nat
deriving DecidableEq

/-- A direction object `{ dq, dr }`. -/
structure Dir where
  dq : Int
  dr : Int
deriving DecidableEq

/-- The array `this.directions`. -/
def directions : List Dir :=
  [⟨1, 0⟩, ⟨-1, 0⟩, ⟨0, 1⟩, ⟨0, -1⟩, ⟨1, -1⟩, ⟨-1, 1⟩]

/-- The array `this.rowSizes`. -/
def rowSizes : List Nat := [5, 6, 7, 8, 9, 8, 7, 6, 5]

/-- The inner loop of `createBoard` for one row: `rowSize` cells starting at
`qStart = Math.max(0, centerRow - row)`, with `r = row - centerRow`. -/
def createRow (row rowSize : Nat) : List Cell :=
  (List.range rowSize).map fun (i : Nat) =>
    { q := max 0 (4 - (row : Int)) + (i : Int), r := (row : Int) - 4,
      state := none, row := row, index := i }

/-- The cells pushed by `createBoard`, in the order they are pushed. -/
def createBoard : List Cell :=
  (List.range 9).flatMap fun row => createRow row (rowSizes.getD row 0)

/-- The method `getCellAt(q, r)`: `this.cells.find(c => c.q === q && c.r === r)`;
`none` is `undefined`. -/
def getCellAt (cells : List Cell) (q r : Int) : Option Cell :=
  cells.find? fun c => decide (c.q = q) && decide (c.r = r)

/-- The assignment `cell.state = v` on the cell object at position `i`. -/
def setState (cells : List Cell) (i : Nat) (v : Option Color) : List Cell :=
  match cells[i]? with
  | some c => cells.set i { c with state := v }
  | none => cells

/-- The `while (true)` loop of `countInDirection`, with fuel: `none` when the
fuel runs out before the loop reaches its `break`. -/
def countLoop (cells : List Cell) (dir : Dir) (targetColor : Option Color) :
    Nat → Int → Int → Nat → Option Nat
  | 0, _, _, _ => none
  | fuel + 1, q, r, count =>
    match getCellAt cells q r with
    | none => some count
    | some neighbor =>
      if neighbor.state ≠ targetColor then some count
      else countLoop cells dir targetColor fuel (q + dir.dq) (r + dir.dr) (count + 1)

/-- The method `countInDirection(cell, dir, color = null)`.  `color || cell.state`
is `color` when a color string is passed and `cell.state` when `null` is. -/
def countInDirection (cells : List Cell) (i : Nat) (dir : Dir) (color : Option Color) :
    Option Nat :=
  match cells[i]? with
  | none => none
  | some cell =>
    let targetColor := match color with
      | some x => some x
      | none => cell.state
    countLoop cells dir targetColor (cells.length + 1) (cell.q + dir.dq) (cell.r + dir.dr) 0

/-- The three pairs of opposite directions, the local `dirPairs` of
`wouldMakeFour` and `wouldMakeThree`:
`[[directions[0], directions[1]], [directions[2], directions[3]], [directions[4], directions[5]]]`. -/
def dirPairs : List (Dir × Dir) :=
  [(⟨1, 0⟩, ⟨-1, 0⟩), (⟨0, 1⟩, ⟨0, -1⟩), (⟨1, -1⟩, ⟨-1, 1⟩)]

/-- The loop `for (const [d1, d2] of dirPairs) { if (test(1 + count(d1) + count(d2)))
{ result = true; break; } }` shared by `wouldMakeFour` and `wouldMakeThree`;
the value is the final `result`.  After the `break` no further axis is counted. -/
def axisLoop (cells : List Cell) (i : Nat) (player : Option Color) (test : Nat → Bool) :
    List (Dir × Dir) → Option Bool
  | [] => some false
  | (d1, d2) :: rest =>
    match countInDirection cells i d1 player with
    | none => none
    | some a =>
      match countInDirection cells i d2 player with
      | none => none
      | some b =>
        if test (1 + a + b) then some true
        else axisLoop cells i player test rest

/-- The method `wouldMakeFour(cell, player)`: returns the boolean and the cells
after the call (`cell.state = player` first, `cell.state = null` last). -/
def wouldMakeFour (cells : List Cell) (i : Nat) (player : Option Color) :
    Option (Bool × List Cell) :=
  let cells1 := setState cells i player
  match axisLoop cells1 i player (fun n => decide (n ≥ 4)) dirPairs with
  | none => none
  | some result => some (result, setState cells1 i none)

/-- The method `wouldMakeThree(cell, player)`: returns the boolean and the cells
after the call (`cell.state = player` first, `cell.state = null` last). -/
def wouldMakeThree (cells : List Cell) (i : Nat) (player : Option Color) :
    Option (Bool × List Cell) :=
  let cells1 := setState cells i player
  match axisLoop cells1 i player (fun n => decide (n = 3)) dirPairs with
  | none => none
  | some result => some (result, setState cells1 i none)

/-- The strings 'lose' and 'win' returned by `checkResult`; `null` is `none`. -/
inductive Result where
  | lose
  | win
deriving DecidableEq

/-- The method `checkResult(cell)`.  Each of the two calls reads `cell.state`
at the moment of the call, so the second one reads what the first one left. -/
def checkResult (cells : List Cell) (i : Nat) : Option (Option Result × List Cell) :=
  match cells[i]? with
  | none => none
  | some cell =>
    match wouldMakeThree cells i cell.state with
    | none => none
    | some (three, cells1) =>
      if three then some (some Result.lose, cells1)
      else
        match cells1[i]? with
        | none => none
        | some cell1 =>
          match wouldMakeFour cells1 i cell1.state with
          | none => none
          | some (four, cells2) =>
            if four then some (some Result.win, cells2) else some (none, cells2)

/-- Values of `this.gameMode`: the strings 'pvp' and 'npc'. -/
inductive GameMode where
  | pvp
  | npc
deriving DecidableEq

/-- Values of `messageEl.className`: the empty string and 'lose'. -/
inductive MessageClass where
  | plain
  | lose
deriving DecidableEq

/-- The fields of `YavalathGame` (without the DOM element handles, the constant
`rowSizes` and `directions`), and `messageEl.className`. -/
structure Game where
  cells : List Cell
  currentPlayer : Color
  gameOver : Bool
  winner : Option Color
  gameMode : GameMode
  npcLevel : Int
  userColor : Color
  playerCount : Int
  nextGameMode : GameMode
  nextNpcLevel : Int
  nextPlayerCount : Int
  messageClass : MessageClass
deriving DecidableEq

/-- The method `getNextPlayer(current)`, reading `this.playerCount`. -/
def getNextPlayer (playerCount : Int) (current : Color) : Color :=
  if playerCount = 2 then
    (if current = Color.B then Color.W else Color.B)
  else
    if current = Color.B then Color.W
    else if current = Color.W then Color.G
    else Color.B

/-- The method `endGame(winnerColor, reason, lastCell)`: `gameOver`, `winner` and
`messageEl.className`. -/
def endGame (s : Game) (winnerColor : Color) (reason : Result) : Game :=
  { s with
    gameOver := true
    winner := some winnerColor
    messageClass := match reason with
      | Result.lose => MessageClass.lose
      | Result.win => MessageClass.plain }

/-- The method `placeStone(cell, hexEl)`. -/
def placeStone (s : Game) (i : Nat) : Option Game :=
  let cells1 := setState s.cells i (some s.currentPlayer)
  match checkResult cells1 i with
  | none => none
  | some (result, cells2) =>
    let s1 := { s with cells := cells2 }
    match result with
    | some Result.lose =>
      some (endGame s1 (getNextPlayer s1.playerCount s1.currentPlayer) Result.lose)
    | some Result.win => some (endGame s1 s1.currentPlayer Result.win)
    | none => some { s1 with currentPlayer := getNextPlayer s1.playerCount s1.currentPlayer }

/-- The method `onCellClick(cell, hexEl)`. -/
def onCellClick (s : Game) (i : Nat) : Option Game :=
  if s.gameOver then some s
  else
    match s.cells[i]? with
    | none => none
    | some cell =>
      if cell.state ≠ none then some s
      else if s.gameMode = GameMode.npc ∧ s.currentPlayer ≠ s.userColor then some s
      else placeStone s i

/-- A value of `Math.random()`: the binary64 number equal to the fraction
`num / den` (see `IsDouble`; `num < den` for a value in `[0, 1)`). -/
structure Rand where
  num : Nat
  den : Nat
deriving DecidableEq

/-- The fraction `num / den` is a binary64 number: it equals `m · 2^(e - 1074)` with
`m < 2^53` (`e = 0` is the subnormal range, whose unit is `2^-1074`). -/
def IsDouble (rnd : Rand) : Prop :=
  0 < rnd.den ∧ ∃ m e : Nat, m < 2 ^ 53 ∧ rnd.num * 2 ^ 1074 = m * 2 ^ e * rnd.den

/-- Rounding to binary64 (to nearest, ties to even) of the number `a · 2^-1074`, the
result again in units of `2^-1074`.  Up to `2^53` units every `a` is a binary64
number (the shift `s` is 0); above, the 53 leading bits `q` are kept and the bits
`rem` below them decide the rounding.  The products rounded here are far below
the overflow threshold. -/
def roundToDouble (a : Nat) : Nat :=
  let s := a.log2 - 52
  let q := a / 2 ^ s
  let rem := a % 2 ^ s
  if 2 * rem > 2 ^ s ∨ (2 * rem = 2 ^ s ∧ q % 2 = 1) then (q + 1) * 2 ^ s else q * 2 ^ s

/-- The expression `Math.floor(Math.random() * n)`: the value of `Math.random()` in
units of `2^-1074`, times the array length `n` (an integer, exact in binary64),
rounded to binary64 as the multiplication does, then floored. -/
def randomIndex (rnd : Rand) (n : Nat) : Nat :=
  roundToDouble (rnd.num * 2 ^ 1074 / rnd.den * n) / 2 ^ 1074

/-- The method `restart()`; `rnd` is the value of its `Math.random()` call, and the
thresholds `0.5`, `0.33`, `0.66` are the fractions 1/2, 33/100, 66/100. -/
def restart (s : Game) (rnd : Rand) : Game :=
  let gameMode := s.nextGameMode
  let playerCount := s.nextPlayerCount
  { s with
    gameMode := gameMode
    npcLevel := s.nextNpcLevel
    playerCount := playerCount
    currentPlayer := Color.B
    gameOver := false
    winner := none
    messageClass := MessageClass.plain
    cells := createBoard
    userColor :=
      if gameMode = GameMode.npc then
        (if playerCount = 2 then
          (if 2 * rnd.num < rnd.den then Color.B else Color.W)
        else if 100 * rnd.num < 33 * rnd.den then Color.B
        else if 100 * rnd.num < 66 * rnd.den then Color.W
        else Color.G)
      else Color.B }

/-- The expression `this.cells.filter(c => c.state === null)` of `npcMove`, as
the positions of the selected cell objects. -/
def emptyCellsOf (cells : List Cell) : List Nat :=
  (List.range cells.length).filter fun i =>
    match cells[i]? with
    | some c => decide (c.state = none)
    | none => false

/-- The expression `emptyCells.filter(c => !this.wouldMakeThree(c, player))`;
each callback call runs on the cells the previous one left. -/
def filterSafe (player : Color) : List Cell → List Nat → Option (List Nat × List Cell)
  | cells, [] => some ([], cells)
  | cells, c :: rest =>
    match wouldMakeThree cells c (some player) with
    | none => none
    | some (three, cells1) =>
      match filterSafe player cells1 rest with
      | none => none
      | some (safe, cells2) => some (if three then safe else c :: safe, cells2)

/-- The method `npcLevel1(emptyCells)`; `none` inside the result is `undefined`. -/
def npcLevel1 (cells : List Cell) (currentPlayer : Color) (emptyCells : List Nat)
    (rnd : Rand) : Option (Option Nat × List Cell) :=
  match filterSafe currentPlayer cells emptyCells with
  | none => none
  | some (safeCells, cells1) =>
    if safeCells.length > 0 then some (safeCells[randomIndex rnd safeCells.length]?, cells1)
    else some (emptyCells[randomIndex rnd emptyCells.length]?, cells1)

/-- The loop `for (const c of emptyCells) if (this.wouldMakeFour(c, player)) return c;`:
the cell returned (`none` when the loop falls through) and the cells after it. -/
def firstFour (player : Color) : List Cell → List Nat → Option (Option Nat × List Cell)
  | cells, [] => some (none, cells)
  | cells, c :: rest =>
    match wouldMakeFour cells c (some player) with
    | none => none
    | some (four, cells1) =>
      if four then some (some c, cells1) else firstFour player cells1 rest

/-- The method `getOpponents(myColor)`, reading `this.playerCount`. -/
def getOpponents (playerCount : Int) (myColor : Color) : List Color :=
  if playerCount = 2 then [if myColor = Color.B then Color.W else Color.B]
  else [Color.B, Color.W, Color.G].filter fun c => decide (c ≠ myColor)

/-- The loop `for (const opp of opponents) { for (const c of emptyCells) if
(this.wouldMakeFour(c, opp)) return c; }` of `npcLevel2`. -/
def firstBlock (emptyCells : List Nat) : List Cell → List Color →
    Option (Option Nat × List Cell)
  | cells, [] => some (none, cells)
  | cells, opp :: rest =>
    match firstFour opp cells emptyCells with
    | none => none
    | some (some c, cells1) => some (some c, cells1)
    | some (none, cells1) => firstBlock emptyCells cells1 rest

/-- The method `getCenterScore(cell)`. -/
def getCenterScore (cell : Cell) : Int := 10 - (|cell.q - 4| + |cell.r|)

/-- An element `{ cell, score }` of the array `scored` of `npcLevel2`. -/
structure Scored where
  cell : Nat
  score : Int
deriving DecidableEq

/-- The call `scored.sort((a, b) => b.score - a.score)`: a stable sort by
descending score. -/
def sortScored (scored : List Scored) : List Scored :=
  scored.insertionSort fun a b => a.score ≥ b.score

/-- The method `npcLevel2(emptyCells)`; `none` inside the result is `undefined`. -/
def npcLevel2 (cells : List Cell) (playerCount : Int) (currentPlayer : Color)
    (emptyCells : List Nat) (rnd : Rand) : Option (Option Nat × List Cell) :=
  let myColor := currentPlayer
  match firstFour myColor cells emptyCells with
  | none => none
  | some (some c, cells1) => some (some c, cells1)
  | some (none, cells1) =>
    match firstBlock emptyCells cells1 (getOpponents playerCount myColor) with
    | none => none
    | some (some c, cells2) => some (some c, cells2)
    | some (none, cells2) =>
      match filterSafe myColor cells2 emptyCells with
      | none => none
      | some (safeCells, cells3) =>
        if safeCells.length > 0 then
          match safeCells.mapM (fun c => (cells3[c]?).map fun cell =>
              ({ cell := c, score := getCenterScore cell } : Scored)) with
          | none => none
          | some scored =>
            let topK := (sortScored scored).take 3
            match topK[randomIndex rnd topK.length]? with
            | none => none
            | some entry => some (some entry.cell, cells3)
        else some (emptyCells[randomIndex rnd emptyCells.length]?, cells3)

/-- The method `npcLevel3(emptyCells)`. -/
def npcLevel3 (cells : List Cell) (playerCount : Int) (currentPlayer : Color)
    (emptyCells : List Nat) (rnd : Rand) : Option (Option Nat × List Cell) :=
  npcLevel2 cells playerCount currentPlayer emptyCells rnd

/-- The method `npcMove()`; `rnd` is the value of the one `Math.random()` call
made by the level that is run. -/
def npcMove (s : Game) (rnd : Rand) : Option Game :=
  if s.gameOver then some s
  else
    let emptyCells := emptyCellsOf s.cells
    if emptyCells.length = 0 then some s
    else
      let chosen :=
        if s.npcLevel = 1 then npcLevel1 s.cells s.currentPlayer emptyCells rnd
        else if s.npcLevel = 2 then npcLevel2 s.cells s.playerCount s.currentPlayer emptyCells rnd
        else if s.npcLevel = 3 then npcLevel3 s.cells s.playerCount s.currentPlayer emptyCells rnd
        else npcLevel1 s.cells s.currentPlayer emptyCells rnd
      match chosen with
      | none => none
      | some (bestCell, cells1) =>
        match bestCell with
        | some c => placeStone { s with cells := cells1 } c
        | none => some { s with cells := cells1 }

/-! ## Drivers -/

/-- The constructor of `YavalathGame`: the field initialisers, the three values
read from the option widgets (`gameModeEl.value`, `parseInt(playerCountEl.value)`,
`parseInt(npcLevelEl.value)`), then `init()`, which calls `restart()`. -/
def newGame (gameModeValue : GameMode) (playerCountValue npcLevelValue : Int)
    (rnd : Rand) : Game :=
  restart
    { cells := []
      currentPlayer := Color.B
      gameOver := false
      winner := none
      gameMode := GameMode.pvp
      npcLevel := 1
      userColor := Color.B
      playerCount := 2
      nextGameMode := gameModeValue
      nextNpcLevel := npcLevelValue
      nextPlayerCount := playerCountValue
      messageClass := MessageClass.plain } rnd

/-- The position in `this.cells` of the cell object that `getCellAt(q, r)` returns
(`cells.length` when there is none). -/
def indexOf (cells : List Cell) (q r : Int) : Nat :=
  cells.findIdx fun c => decide (c.q = q) && decide (c.r = r)

/-- A sequence of clicks: `onCellClick` called on each cell of the list in turn. -/
def clickAll : Game → List Nat → Option Game
  | s, [] => some s
  | s, i :: rest =>
    match onCellClick s i with
    | none => none
    | some s1 => clickAll s1 rest

/-- A sequence of placements: `placeStone` called on each cell of the list in
turn; the value is the list of the states after each call. -/
def placeAll : Game → List Nat → Option (List Game)
  | _, [] => some []
  | s, i :: rest =>
    match placeStone s i with
    | none => none
    | some s1 =>
      match placeAll s1 rest with
      | none => none
      | some states => some (s1 :: states)

/-! ## Specification predicates -/

/-- The cell at `(q, r)` is on the board and its state is `x`. -/
def Matches (cells : List Cell) (x : Option Color) (q r : Int) : Prop :=
  ∃ n, getCellAt cells q r = some n ∧ n.state = x

/-- From `(q, r)` in direction `dir`, exactly `k` consecutive cells have state `x`:
the cells `(q, r) + j·dir` for `1 ≤ j ≤ k` are on the board with state `x`, and
the cell `(q, r) + (k + 1)·dir` is off the board or has another state. -/
def RunExtent (cells : List Cell) (q r : Int) (dir : Dir) (x : Option Color) (k : Nat) : Prop :=
  (∀ j : Nat, 1 ≤ j → j ≤ k → Matches cells x (q + j * dir.dq) (r + j * dir.dr)) ∧
  ¬ Matches cells x (q + ((k : Int) + 1) * dir.dq) (r + ((k : Int) + 1) * dir.dr)

/-- The value of `color || cell.state`. -/
def targetOf (color : Option Color) (cell : Cell) : Option Color :=
  match color with
  | some x => some x
  | none => cell.state

/-- The run on the axis `(d1, d2)` through `(q, r)`, counting `(q, r)` itself as a
stone of color `x`, has length `n`. -/
def AxisRun (cells : List Cell) (q r : Int) (d1 d2 : Dir) (x : Option Color) (n : Nat) : Prop :=
  ∃ a b, RunExtent cells q r d1 x a ∧ RunExtent cells q r d2 x b ∧ n = 1 + a + b

/-- Some axis through `(q, r)` has a run of exactly 3 stones of color `x`, counting
`(q, r)` itself as one of them. -/
def ExactlyThree (cells : List Cell) (q r : Int) (x : Option Color) : Prop :=
  ∃ pr ∈ dirPairs, AxisRun cells q r pr.1 pr.2 x 3

/-- Some axis through `(q, r)` has a run of at least 4 stones of color `x`, counting
`(q, r)` itself as one of them. -/
def AtLeastFour (cells : List Cell) (q r : Int) (x : Option Color) : Prop :=
  ∃ pr ∈ dirPairs, ∃ n, AxisRun cells q r pr.1 pr.2 x n ∧ 4 ≤ n

/-- The sum `countInDirection(cell, d1, player) + countInDirection(cell, d2, player)`
formed by `wouldMakeFour` and `wouldMakeThree` for one axis, the first direction
counted first. -/
def runLength (cells : List Cell) (i : Nat) (d1 d2 : Dir) (color : Option Color) : Option Nat :=
  match countInDirection cells i d1 color with
  | none => none
  | some a =>
    match countInDirection cells i d2 color with
    | none => none
    | some b => some (a + b)

/-- Decision procedure for `ExactlyThree` at the cell in position `i`. -/
def exactlyThreeB (cells : List Cell) (i : Nat) (color : Option Color) : Bool :=
  dirPairs.any fun pr =>
    match runLength cells i pr.1 pr.2 color with
    | some m => decide (1 + m = 3)
    | none => false

/-- Decision procedure for `AtLeastFour` at the cell in position `i`. -/
def atLeastFourB (cells : List Cell) (i : Nat) (color : Option Color) : Bool :=
  dirPairs.any fun pr =>
    match runLength cells i pr.1 pr.2 color with
    | some m => decide (4 ≤ 1 + m)
    | none => false

/-- The pair `(q, r)` lies in the hexagon of radius 4 around `(4, 0)`. -/
def InHexagon (q r : Int) : Prop :=
  -4 ≤ r ∧ r ≤ 4 ∧ max 0 (-r) ≤ q ∧ q ≤ min 8 (8 - r)

instance decidableInHexagon (q r : Int) : Decidable (InHexagon q r) := by
  unfold InHexagon; infer_instance

/-- Every element of `emptyCells` is a cell of the board whose state is empty. -/
def ValidEmpty (cells : List Cell) (emptyCells : List Nat) : Prop :=
  ∀ c ∈ emptyCells, ∃ cell, cells[c]? = some cell ∧ cell.state = none

/-- The score given by `getCenterScore` to the cell in position `c` (0 when there
is no such cell). -/
def scoreAt (cells : List Cell) (c : Nat) : Int :=
  match cells[c]? with
  | some cell => getCenterScore cell
  | none => 0

/-- The cells of `emptyCells` that do not make a run of exactly 3 for `m`, in the
order of `emptyCells`: the safe cells. -/
def safeCellsOf (cells : List Cell) (m : Color) (emptyCells : List Nat) : List Nat :=
  emptyCells.filter fun c => !exactlyThreeB cells c (some m)

/-- The safe cells with their scores, after the sort of `npcLevel2`. -/
def rankedSafe (cells : List Cell) (m : Color) (emptyCells : List Nat) : List Scored :=
  sortScored ((safeCellsOf cells m emptyCells).map fun c =>
    ({ cell := c, score := scoreAt cells c } : Scored))

/-- The point reached from `p` by the steps of `steps`, one after the other. -/
def walk : Int × Int → List Dir → Int × Int
  | p, [] => p
  | p, d :: rest => walk (p.1 + d.dq, p.2 + d.dr) rest

/-- The point `(q, r)` is reached from the center `(4, 0)` in at most `n` steps along
the six neighbor directions: its hex-grid distance to the center is at most `n`. -/
def WithinSteps (n : Nat) (q r : Int) : Prop :=
  ∃ steps : List Dir, steps.length ≤ n ∧ (∀ d ∈ steps, d ∈ directions) ∧
    walk (4, 0) steps = (q, r)

/-- The cell `a` is at least as close to the center `(4, 0)` as the cell `b`, in the
hex-grid distance. -/
def AtLeastAsClose (a b : Cell) : Prop :=
  ∀ n, WithinSteps n b.q b.r → WithinSteps n a.q a.r

/-- The cells have the coordinates of the 61 cells made by `createBoard`, in the
same order: `cells` is the board with some assignment of states. -/
def IsBoard (cells : List Cell) : Prop :=
  cells.map (fun c => (c.q, c.r)) = createBoard.map (fun c => (c.q, c.r))

instance decidableIsBoard (cells : List Cell) : Decidable (IsBoard cells) := by
  unfold IsBoard; infer_instance

/-- The states reached from a call of `restart()` by calls of `onCellClick` (on a
cell object), `npcMove` and `restart` that return. -/
inductive Reachable : Game → Prop where
  | restart (s : Game) (rnd : Rand) : Reachable (restart s rnd)
  | click (s s1 : Game) (i : Nat) : Reachable s → onCellClick s i = some s1 → Reachable s1
  | npc (s s1 : Game) (rnd : Rand) : Reachable s → npcMove s rnd = some s1 → Reachable s1

/-! ## Example positions -/

/-- A new two-player game without NPC: the empty 61-cell board, B to move. -/
def freshGame : Game := newGame GameMode.pvp 2 1 ⟨0, 1⟩

/-- The two-player game with B stones on (2, 0) and (3, 0), B to move. -/
def twoInRow : Game :=
  { freshGame with
    cells := setState (setState createBoard (indexOf createBoard 2 0) (some Color.B))
      (indexOf createBoard 3 0) (some Color.B) }

/-- A three-player game, B to move, in which every cell but the center (4, 0)
holds a G stone. -/
def crowded : Game :=
  { newGame GameMode.pvp 3 1 ⟨0, 1⟩ with
    cells := setState (createBoard.map fun c => { c with state := some Color.G })
      (indexOf createBoard 4 0) none }

/-- The two-player position, B to move, with B stones on (1, 0), (2, 0), (3, 0), the
center (4, 0) empty and a W stone on every other cell. -/
def fourReady : Game :=
  { freshGame with
    cells := setState (setState (setState (setState
        (createBoard.map fun c => { c with state := some Color.W })
        (indexOf createBoard 1 0) (some Color.B))
        (indexOf createBoard 2 0) (some Color.B))
        (indexOf createBoard 3 0) (some Color.B))
        (indexOf createBoard 4 0) none }

/-- The two-player position with B stones on (1, 0), (2, 0), (3, 0), (4, 1), (4, 2) and
a W stone on (0, 0), B to move. -/
def poisonedWin : Game :=
  { freshGame with
    cells := setState (setState (setState (setState (setState (setState createBoard
        (indexOf createBoard 1 0) (some Color.B))
        (indexOf createBoard 2 0) (some Color.B))
        (indexOf createBoard 3 0) (some Color.B))
        (indexOf createBoard 4 1) (some Color.B))
        (indexOf createBoard 4 2) (some Color.B))
        (indexOf createBoard 0 0) (some Color.W) }

/-- A two-player game that has ended with a win for B. -/
def endedGame : Game := endGame freshGame Color.B Result.win

/-! ## Lemmas on the board and on `countInDirection` -/

theorem setState_length (cells : List Cell) (i : Nat) (v : Option Color) :
    (setState cells i v).length = cells.length := by
  unfold setState
  split <;> simp

theorem setState_getElem?_self (cells : List Cell) (i : Nat) (v : Option Color) (c : Cell)
    (h : cells[i]? = some c) : (setState cells i v)[i]? = some { c with state := v } := by
  have hi : i < cells.length := by
    rcases Nat.lt_or_ge i cells.length with h1 | h1
    · exact h1
    · rw [List.getElem?_eq_none h1] at h; cases h
  unfold setState
  rw [h]
  simp [List.getElem?_set, hi]

theorem setState_getElem?_ne (cells : List Cell) (i j : Nat) (v : Option Color) (h : j ≠ i) :
    (setState cells i v)[j]? = cells[j]? := by
  unfold setState
  split
  · simp [List.getElem?_set, Ne.symm h]
  · rfl

theorem getCellAt_mem {cells : List Cell} {q r : Int} {n : Cell}
    (h : getCellAt cells q r = some n) : n ∈ cells ∧ n.q = q ∧ n.r = r := by
  unfold getCellAt at h
  refine ⟨List.mem_of_find?_eq_some h, ?_⟩
  have := List.find?_some h
  simpa using this

theorem find?_set_coords (p : Cell → Bool) (cells : List Cell) (i : Nat) (c c1 : Cell)
    (h : cells[i]? = some c) (hp : p c1 = p c) (hc : p c = false) :
    (cells.set i c1).find? p = cells.find? p := by
  induction cells generalizing i with
  | nil => simp
  | cons a t ih =>
    cases i with
    | zero =>
      simp at h
      subst h
      simp [List.find?_cons, hp, hc]
    | succ i =>
      simp at h
      simp only [List.set_cons_succ, List.find?_cons]
      rw [ih i h]

theorem getCellAt_setState (cells : List Cell) (i : Nat) (v : Option Color) (q r : Int)
    (h : ∀ c, cells[i]? = some c → ¬ (c.q = q ∧ c.r = r)) :
    getCellAt (setState cells i v) q r = getCellAt cells q r := by
  unfold setState
  cases hc : cells[i]? with
  | none => rfl
  | some c =>
    simp only
    unfold getCellAt
    apply find?_set_coords _ _ _ c _ hc
    · rfl
    · have := h c hc
      simp only [Bool.and_eq_false_imp, decide_eq_true_eq, decide_eq_false_iff_not]
      intro h1 h2
      exact this ⟨h1, h2⟩

theorem countLoop_congr (cells cells1 : List Cell) (dir : Dir) (t : Option Color)
    (fuel : Nat) (q r : Int) (count : Nat)
    (h : ∀ j : Nat, getCellAt cells1 (q + j * dir.dq) (r + j * dir.dr)
      = getCellAt cells (q + j * dir.dq) (r + j * dir.dr)) :
    countLoop cells1 dir t fuel q r count = countLoop cells dir t fuel q r count := by
  induction fuel generalizing q r count with
  | zero => rfl
  | succ f ih =>
    have h0 := h 0
    simp only [Nat.cast_zero, zero_mul, add_zero] at h0
    simp only [countLoop, h0]
    cases getCellAt cells q r with
    | none => rfl
    | some n =>
      simp only
      split
      · rfl
      · apply ih
        intro j
        have := h (j + 1)
        have e1 : q + dir.dq + (j : Int) * dir.dq = q + ((j + 1 : Nat) : Int) * dir.dq := by
          push_cast; ring
        have e2 : r + dir.dr + (j : Int) * dir.dr = r + ((j + 1 : Nat) : Int) * dir.dr := by
          push_cast; ring
        rw [e1, e2]
        exact this

theorem countLoop_some (cells : List Cell) (dir : Dir) (t : Option Color) (k : Nat) :
    ∀ (fuel : Nat) (q r : Int) (count : Nat), k < fuel →
      (∀ j : Nat, j < k → Matches cells t (q + j * dir.dq) (r + j * dir.dr)) →
      ¬ Matches cells t (q + k * dir.dq) (r + k * dir.dr) →
      countLoop cells dir t fuel q r count = some (count + k) := by
  induction k with
  | zero =>
    intro fuel q r count hf _ hn
    cases fuel with
    | zero => omega
    | succ f =>
      simp only [Nat.cast_zero, zero_mul, add_zero] at hn
      simp only [countLoop]
      cases hg : getCellAt cells q r with
      | none => rfl
      | some n =>
        simp only
        have : n.state ≠ t := fun e => hn ⟨n, hg, e⟩
        simp [this]
  | succ k ih =>
    intro fuel q r count hf hm hn
    cases fuel with
    | zero => omega
    | succ f =>
      obtain ⟨n, hg, hs⟩ := hm 0 (Nat.succ_pos k)
      simp only [Nat.cast_zero, zero_mul, add_zero] at hg
      simp only [countLoop, hg, hs, ne_eq, not_true_eq_false, if_false]
      rw [ih f (q + dir.dq) (r + dir.dr) (count + 1) (by omega)]
      · congr 1; omega
      · intro j hj
        have := hm (j + 1) (by omega)
        have e1 : q + dir.dq + (j : Int) * dir.dq = q + ((j + 1 : Nat) : Int) * dir.dq := by
          push_cast; ring
        have e2 : r + dir.dr + (j : Int) * dir.dr = r + ((j + 1 : Nat) : Int) * dir.dr := by
          push_cast; ring
        rw [e1, e2]; exact this
      · have e1 : q + dir.dq + (k : Int) * dir.dq = q + ((k + 1 : Nat) : Int) * dir.dq := by
          push_cast; ring
        have e2 : r + dir.dr + (k : Int) * dir.dr = r + ((k + 1 : Nat) : Int) * dir.dr := by
          push_cast; ring
        rw [e1, e2]; exact hn

theorem matched_le_length (cells : List Cell) (dir : Dir) (t : Option Color) (q r : Int)
    (k : Nat) (hd : dir.dq ≠ 0 ∨ dir.dr ≠ 0)
    (hm : ∀ j : Nat, j < k → Matches cells t (q + j * dir.dq) (r + j * dir.dr)) :
    k ≤ cells.length := by
  let f : Nat → Int × Int := fun j => (q + j * dir.dq, r + j * dir.dr)
  have hinj : Function.Injective f := by
    intro a b hab
    simp only [f, Prod.mk.injEq, add_right_inj] at hab
    rcases hd with h | h
    · have := mul_right_cancel₀ h hab.1
      exact_mod_cast this
    · have := mul_right_cancel₀ h hab.2
      exact_mod_cast this
  have hnd : ((List.range k).map f).Nodup := (List.nodup_range k).map hinj
  have hsub : (List.range k).map f ⊆ cells.map (fun c => (c.q, c.r)) := by
    intro x hx
    rw [List.mem_map] at hx
    obtain ⟨j, hj, rfl⟩ := hx
    rw [List.mem_range] at hj
    obtain ⟨n, hg, _⟩ := hm j hj
    obtain ⟨hmem, hq, hr⟩ := getCellAt_mem hg
    rw [List.mem_map]
    exact ⟨n, hmem, by simp [f, hq, hr]⟩
  have := (List.subperm_of_subset hnd hsub).length_le
  simpa using this

theorem exists_first_mismatch (cells : List Cell) (dir : Dir) (t : Option Color) (q r : Int)
    (hd : dir.dq ≠ 0 ∨ dir.dr ≠ 0) :
    ∃ k : Nat, k ≤ cells.length ∧
      (∀ j : Nat, j < k → Matches cells t (q + j * dir.dq) (r + j * dir.dr)) ∧
      ¬ Matches cells t (q + k * dir.dq) (r + k * dir.dr) := by
  classical
  have hex : ∃ k : Nat, ¬ Matches cells t (q + k * dir.dq) (r + k * dir.dr) := by
    by_contra hall
    push_neg at hall
    have := matched_le_length cells dir t q r (cells.length + 1) hd (fun j _ => hall j)
    omega
  refine ⟨Nat.find hex, ?_, ?_, Nat.find_spec hex⟩
  · apply matched_le_length cells dir t q r _ hd
    intro j hj
    have := Nat.find_min hex hj
    simpa using this
  · intro j hj
    have := Nat.find_min hex hj
    simpa using this

theorem dir_ne_zero {dir : Dir} (h : dir ∈ directions) : dir.dq ≠ 0 ∨ dir.dr ≠ 0 := by
  simp only [directions, List.mem_cons, List.mem_singleton, List.not_mem_nil, or_false] at h
  rcases h with h | h | h | h | h | h <;> subst h <;> simp

theorem runExtent_iff (cells : List Cell) (q r : Int) (dir : Dir) (x : Option Color) (k : Nat) :
    RunExtent cells q r dir x k ↔
      (∀ j : Nat, j < k →
        Matches cells x (q + dir.dq + j * dir.dq) (r + dir.dr + j * dir.dr)) ∧
      ¬ Matches cells x (q + dir.dq + k * dir.dq) (r + dir.dr + k * dir.dr) := by
  have e1 : ∀ (a d : Int) (j : Nat), a + d + (j : Int) * d = a + ((j + 1 : Nat) : Int) * d := by
    intro a d j; push_cast; ring
  have e2 : ∀ (a d : Int), a + d + (k : Int) * d = a + ((k : Int) + 1) * d := by
    intro a d; ring
  unfold RunExtent
  rw [e2, e2]
  constructor
  · rintro ⟨h1, h2⟩
    refine ⟨fun j hj => ?_, h2⟩
    rw [e1, e1]
    exact h1 (j + 1) (by omega) (by omega)
  · rintro ⟨h1, h2⟩
    refine ⟨fun j hj1 hj2 => ?_, h2⟩
    have := h1 (j - 1) (by omega)
    rw [e1, e1] at this
    have e : j - 1 + 1 = j := by omega
    rw [e] at this
    exact this

theorem runExtent_unique (cells : List Cell) (q r : Int) (dir : Dir) (x : Option Color)
    (k k1 : Nat) (h : RunExtent cells q r dir x k) (h1 : RunExtent cells q r dir x k1) :
    k = k1 := by
  rcases Nat.lt_trichotomy k k1 with hlt | heq | hgt
  · exfalso
    apply h.2
    have := h1.1 (k + 1) (by omega) (by omega)
    simpa using this
  · exact heq
  · exfalso
    apply h1.2
    have := h.1 (k1 + 1) (by omega) (by omega)
    simpa using this

theorem countInDirection_of_runExtent (cells : List Cell) (i : Nat) (c : Cell) (dir : Dir)
    (color : Option Color) (k : Nat) (hc : cells[i]? = some c)
    (hd : dir.dq ≠ 0 ∨ dir.dr ≠ 0)
    (h : RunExtent cells c.q c.r dir (targetOf color c) k) :
    countInDirection cells i dir color = some k := by
  rw [runExtent_iff] at h
  have hk : k ≤ cells.length := matched_le_length cells dir _ _ _ k hd h.1
  unfold countInDirection
  rw [hc]
  simp only
  have := countLoop_some cells dir (targetOf color c) k (cells.length + 1)
    (c.q + dir.dq) (c.r + dir.dr) 0 (by omega) h.1 h.2
  simpa [targetOf] using this

theorem exists_runExtent (cells : List Cell) (q r : Int) (dir : Dir) (x : Option Color)
    (hd : dir.dq ≠ 0 ∨ dir.dr ≠ 0) : ∃ k, RunExtent cells q r dir x k := by
  obtain ⟨k, _, h1, h2⟩ := exists_first_mismatch cells dir x (q + dir.dq) (r + dir.dr) hd
  exact ⟨k, (runExtent_iff cells q r dir x k).2 ⟨h1, h2⟩⟩

theorem countInDirection_iff (cells : List Cell) (i : Nat) (c : Cell) (dir : Dir)
    (color : Option Color) (k : Nat) (hc : cells[i]? = some c)
    (hd : dir.dq ≠ 0 ∨ dir.dr ≠ 0) :
    countInDirection cells i dir color = some k ↔
      RunExtent cells c.q c.r dir (targetOf color c) k := by
  constructor
  · intro h
    obtain ⟨k0, h0⟩ := exists_runExtent cells c.q c.r dir (targetOf color c) hd
    have := countInDirection_of_runExtent cells i c dir color k0 hc hd h0
    rw [this] at h
    cases h
    exact h0
  · exact countInDirection_of_runExtent cells i c dir color k hc hd

theorem step_ne_self (dir : Dir) (hd : dir.dq ≠ 0 ∨ dir.dr ≠ 0) (q r j : Int) (hj : j ≠ 0) :
    ¬ (q = q + j * dir.dq ∧ r = r + j * dir.dr) := by
  rintro ⟨h1, h2⟩
  have h1' : j * dir.dq = 0 := by linarith
  have h2' : j * dir.dr = 0 := by linarith
  rcases hd with h | h
  · rcases mul_eq_zero.1 h1' with h3 | h3
    · exact hj h3
    · exact h h3
  · rcases mul_eq_zero.1 h2' with h3 | h3
    · exact hj h3
    · exact h h3

theorem matches_setState (cells : List Cell) (i : Nat) (c : Cell) (v x : Option Color)
    (q r : Int) (hc : cells[i]? = some c) (hne : ¬ (c.q = q ∧ c.r = r)) :
    Matches (setState cells i v) x q r ↔ Matches cells x q r := by
  unfold Matches
  rw [getCellAt_setState cells i v q r]
  intro c1 h1
  rw [hc] at h1
  cases h1
  exact hne

theorem runExtent_setState (cells : List Cell) (i : Nat) (c : Cell) (v x : Option Color)
    (dir : Dir) (k : Nat) (hc : cells[i]? = some c) (hd : dir.dq ≠ 0 ∨ dir.dr ≠ 0) :
    RunExtent (setState cells i v) c.q c.r dir x k ↔ RunExtent cells c.q c.r dir x k := by
  unfold RunExtent
  have hk : ¬ (c.q = c.q + ((k : Int) + 1) * dir.dq ∧ c.r = c.r + ((k : Int) + 1) * dir.dr) :=
    step_ne_self dir hd c.q c.r _ (by omega)
  rw [matches_setState cells i c v x _ _ hc hk]
  constructor
  · rintro ⟨h1, h2⟩
    refine ⟨fun j hj1 hj2 => ?_, h2⟩
    have hj : ¬ (c.q = c.q + (j : Int) * dir.dq ∧ c.r = c.r + (j : Int) * dir.dr) :=
      step_ne_self dir hd c.q c.r _ (by omega)
    exact (matches_setState cells i c v x _ _ hc hj).1 (h1 j hj1 hj2)
  · rintro ⟨h1, h2⟩
    refine ⟨fun j hj1 hj2 => ?_, h2⟩
    have hj : ¬ (c.q = c.q + (j : Int) * dir.dq ∧ c.r = c.r + (j : Int) * dir.dr) :=
      step_ne_self dir hd c.q c.r _ (by omega)
    exact (matches_setState cells i c v x _ _ hc hj).2 (h1 j hj1 hj2)

theorem axisRun_setState (cells : List Cell) (i : Nat) (c : Cell) (v x : Option Color)
    (d1 d2 : Dir) (n : Nat) (hc : cells[i]? = some c) (h1 : d1.dq ≠ 0 ∨ d1.dr ≠ 0)
    (h2 : d2.dq ≠ 0 ∨ d2.dr ≠ 0) :
    AxisRun (setState cells i v) c.q c.r d1 d2 x n ↔ AxisRun cells c.q c.r d1 d2 x n := by
  unfold AxisRun
  simp only [runExtent_setState cells i c v x _ _ hc h1, runExtent_setState cells i c v x _ _ hc h2]

theorem setState_setState (cells : List Cell) (i : Nat) (v w : Option Color) :
    setState (setState cells i v) i w = setState cells i w := by
  cases hc : cells[i]? with
  | none => simp [setState, hc]
  | some c =>
    have hi : i < cells.length := by
      rcases Nat.lt_or_ge i cells.length with h1 | h1
      · exact h1
      · rw [List.getElem?_eq_none h1] at hc; cases hc
    simp [setState, hc, List.getElem?_set, hi]

theorem setState_eq_self (cells : List Cell) (i : Nat) (c : Cell) (hc : cells[i]? = some c) :
    setState cells i c.state = cells := by
  simp only [setState, hc]
  apply List.ext_getElem?
  intro j
  rw [List.getElem?_set]
  split
  · next h =>
    subst h
    have hi : i < cells.length := by
      rcases Nat.lt_or_ge i cells.length with h1 | h1
      · exact h1
      · rw [List.getElem?_eq_none h1] at hc; cases hc
    simp [hc, hi]
  · rfl

theorem dirPairs_ne_zero {pr : Dir × Dir} (h : pr ∈ dirPairs) :
    (pr.1.dq ≠ 0 ∨ pr.1.dr ≠ 0) ∧ (pr.2.dq ≠ 0 ∨ pr.2.dr ≠ 0) := by
  simp only [dirPairs, List.mem_cons, List.mem_singleton, List.not_mem_nil, or_false] at h
  rcases h with h | h | h <;> subst h <;> simp

theorem axisLoop_spec (cells : List Cell) (i : Nat) (c : Cell) (player : Option Color)
    (test : Nat → Bool) (hc : cells[i]? = some c) (hp : targetOf player c = player)
    (pairs : List (Dir × Dir))
    (hd : ∀ pr ∈ pairs, (pr.1.dq ≠ 0 ∨ pr.1.dr ≠ 0) ∧ (pr.2.dq ≠ 0 ∨ pr.2.dr ≠ 0)) :
    ∃ b, axisLoop cells i player test pairs = some b ∧
      (b = true ↔ ∃ pr ∈ pairs, ∃ n, AxisRun cells c.q c.r pr.1 pr.2 player n ∧ test n = true) := by
  induction pairs with
  | nil => exact ⟨false, rfl, by simp⟩
  | cons pr rest ih =>
    obtain ⟨d1, d2⟩ := pr
    obtain ⟨h1, h2⟩ := hd (d1, d2) (List.mem_cons_self _ _)
    obtain ⟨a, ha⟩ := exists_runExtent cells c.q c.r d1 player h1
    obtain ⟨b, hb⟩ := exists_runExtent cells c.q c.r d2 player h2
    have ca : countInDirection cells i d1 player = some a :=
      countInDirection_of_runExtent cells i c d1 player a hc h1 (by rw [hp]; exact ha)
    have cb : countInDirection cells i d2 player = some b :=
      countInDirection_of_runExtent cells i c d2 player b hc h2 (by rw [hp]; exact hb)
    simp only [axisLoop, ca, cb]
    by_cases ht : test (1 + a + b) = true
    · refine ⟨true, by simp [ht], ?_⟩
      simp only [true_iff]
      exact ⟨(d1, d2), List.mem_cons_self _ _, 1 + a + b, ⟨a, b, ha, hb, rfl⟩, ht⟩
    · obtain ⟨res, hres, hiff⟩ := ih (fun pr hpr => hd pr (List.mem_cons_of_mem _ hpr))
      refine ⟨res, by simp [ht, hres], ?_⟩
      rw [hiff]
      constructor
      · rintro ⟨pr, hpr, n, hn, htn⟩
        exact ⟨pr, List.mem_cons_of_mem _ hpr, n, hn, htn⟩
      · rintro ⟨pr, hpr, n, hn, htn⟩
        rcases List.mem_cons.1 hpr with heq | hmem
        · subst heq
          obtain ⟨a1, b1, ha1, hb1, rfl⟩ := hn
          have ea := runExtent_unique cells c.q c.r d1 player a a1 ha ha1
          have eb := runExtent_unique cells c.q c.r d2 player b b1 hb hb1
          subst ea; subst eb
          exact absurd htn ht
        · exact ⟨pr, hmem, n, hn, htn⟩

theorem targetOf_setState (c : Cell) (player : Option Color) :
    targetOf player { c with state := player } = player := by
  cases player <;> rfl

theorem wouldMake_spec (cells : List Cell) (i : Nat) (c : Cell) (player : Option Color)
    (test : Nat → Bool) (hc : cells[i]? = some c) :
    ∃ b, axisLoop (setState cells i player) i player test dirPairs = some b ∧
      (b = true ↔ ∃ pr ∈ dirPairs, ∃ n, AxisRun cells c.q c.r pr.1 pr.2 player n ∧ test n = true) := by
  have hc1 := setState_getElem?_self cells i player c hc
  obtain ⟨b, hb, hiff⟩ := axisLoop_spec (setState cells i player) i { c with state := player }
    player test hc1 (targetOf_setState c player) dirPairs (fun pr hpr => dirPairs_ne_zero hpr)
  refine ⟨b, hb, ?_⟩
  rw [hiff]
  constructor
  · rintro ⟨pr, hpr, n, hn, htn⟩
    obtain ⟨h1, h2⟩ := dirPairs_ne_zero hpr
    exact ⟨pr, hpr, n, (axisRun_setState cells i c player player _ _ n hc h1 h2).1 hn, htn⟩
  · rintro ⟨pr, hpr, n, hn, htn⟩
    obtain ⟨h1, h2⟩ := dirPairs_ne_zero hpr
    exact ⟨pr, hpr, n, (axisRun_setState cells i c player player _ _ n hc h1 h2).2 hn, htn⟩

theorem wouldMakeThree_spec (cells : List Cell) (i : Nat) (c : Cell) (player : Option Color)
    (hc : cells[i]? = some c) :
    ∃ b, wouldMakeThree cells i player = some (b, setState cells i none) ∧
      (b = true ↔ ∃ pr ∈ dirPairs, AxisRun cells c.q c.r pr.1 pr.2 player 3) := by
  obtain ⟨b, hb, hiff⟩ := wouldMake_spec cells i c player (fun n => decide (n = 3)) hc
  refine ⟨b, by simp [wouldMakeThree, hb, setState_setState], ?_⟩
  rw [hiff]
  constructor
  · rintro ⟨pr, hpr, n, hn, htn⟩
    simp only [decide_eq_true_eq] at htn
    subst htn
    exact ⟨pr, hpr, hn⟩
  · rintro ⟨pr, hpr, hn⟩
    exact ⟨pr, hpr, 3, hn, by simp⟩

theorem wouldMakeFour_spec (cells : List Cell) (i : Nat) (c : Cell) (player : Option Color)
    (hc : cells[i]? = some c) :
    ∃ b, wouldMakeFour cells i player = some (b, setState cells i none) ∧
      (b = true ↔ ∃ pr ∈ dirPairs, ∃ n, AxisRun cells c.q c.r pr.1 pr.2 player n ∧ 4 ≤ n) := by
  obtain ⟨b, hb, hiff⟩ := wouldMake_spec cells i c player (fun n => decide (n ≥ 4)) hc
  refine ⟨b, by simp [wouldMakeFour, hb, setState_setState], ?_⟩
  rw [hiff]
  simp

theorem placeStone_spec (s : Game) (i : Nat) (c : Cell) (hc : s.cells[i]? = some c) :
    ∃ three four : Bool,
      (three = true ↔
        ∃ pr ∈ dirPairs, AxisRun s.cells c.q c.r pr.1 pr.2 (some s.currentPlayer) 3) ∧
      (four = true ↔
        ∃ pr ∈ dirPairs, ∃ n, AxisRun s.cells c.q c.r pr.1 pr.2 none n ∧ 4 ≤ n) ∧
      placeStone s i = some
        (if three = true then
          endGame { s with cells := setState s.cells i none }
            (getNextPlayer s.playerCount s.currentPlayer) Result.lose
        else if four = true then
          endGame { s with cells := setState s.cells i none } s.currentPlayer Result.win
        else
          { s with cells := setState s.cells i none,
                   currentPlayer := getNextPlayer s.playerCount s.currentPlayer }) := by
  have hc1 := setState_getElem?_self s.cells i (some s.currentPlayer) c hc
  obtain ⟨b3, h3, h3iff⟩ := wouldMakeThree_spec (setState s.cells i (some s.currentPlayer)) i
    { c with state := some s.currentPlayer } (some s.currentPlayer) hc1
  rw [setState_setState] at h3
  have hc2 := setState_getElem?_self s.cells i none c hc
  obtain ⟨b4, h4, h4iff⟩ := wouldMakeFour_spec (setState s.cells i none) i
    { c with state := none } none hc2
  rw [setState_setState] at h4
  refine ⟨b3, b4, ?_, ?_, ?_⟩
  · rw [h3iff]
    constructor
    · rintro ⟨pr, hpr, h⟩
      obtain ⟨e1, e2⟩ := dirPairs_ne_zero hpr
      exact ⟨pr, hpr, (axisRun_setState s.cells i c _ _ _ _ 3 hc e1 e2).1 h⟩
    · rintro ⟨pr, hpr, h⟩
      obtain ⟨e1, e2⟩ := dirPairs_ne_zero hpr
      exact ⟨pr, hpr, (axisRun_setState s.cells i c _ _ _ _ 3 hc e1 e2).2 h⟩
  · rw [h4iff]
    constructor
    · rintro ⟨pr, hpr, n, h, hn⟩
      obtain ⟨e1, e2⟩ := dirPairs_ne_zero hpr
      exact ⟨pr, hpr, n, (axisRun_setState s.cells i c _ _ _ _ n hc e1 e2).1 h, hn⟩
    · rintro ⟨pr, hpr, n, h, hn⟩
      obtain ⟨e1, e2⟩ := dirPairs_ne_zero hpr
      exact ⟨pr, hpr, n, (axisRun_setState s.cells i c _ _ _ _ n hc e1 e2).2 h, hn⟩
  · unfold placeStone checkResult
    simp only [hc1, h3]
    cases b3 with
    | true => simp
    | false =>
      simp only [hc2, h4]
      cases b4 <;> simp

theorem checkResult_spec (cells : List Cell) (i : Nat) (c : Cell) (hc : cells[i]? = some c) :
    ∃ three four : Bool,
      (three = true ↔ ∃ pr ∈ dirPairs, AxisRun cells c.q c.r pr.1 pr.2 c.state 3) ∧
      (four = true ↔ ∃ pr ∈ dirPairs, ∃ n, AxisRun cells c.q c.r pr.1 pr.2 none n ∧ 4 ≤ n) ∧
      checkResult cells i = some
        (if three = true then some Result.lose
          else if four = true then some Result.win else none, setState cells i none) := by
  obtain ⟨b3, h3, h3iff⟩ := wouldMakeThree_spec cells i c c.state hc
  have hc2 := setState_getElem?_self cells i none c hc
  obtain ⟨b4, h4, h4iff⟩ := wouldMakeFour_spec (setState cells i none) i
    { c with state := none } none hc2
  rw [setState_setState] at h4
  refine ⟨b3, b4, h3iff, ?_, ?_⟩
  · rw [h4iff]
    constructor
    · rintro ⟨pr, hpr, n, h, hn⟩
      obtain ⟨e1, e2⟩ := dirPairs_ne_zero hpr
      exact ⟨pr, hpr, n, (axisRun_setState cells i c _ _ _ _ n hc e1 e2).1 h, hn⟩
    · rintro ⟨pr, hpr, n, h, hn⟩
      obtain ⟨e1, e2⟩ := dirPairs_ne_zero hpr
      exact ⟨pr, hpr, n, (axisRun_setState cells i c _ _ _ _ n hc e1 e2).2 h, hn⟩
  · unfold checkResult
    simp only [hc, h3]
    cases b3 with
    | true => simp
    | false =>
      simp only [hc2, h4]
      cases b4 <;> simp

theorem getNextPlayer_ne (playerCount : Int) (x : Color) : getNextPlayer playerCount x ≠ x := by
  unfold getNextPlayer
  cases x <;> split <;> simp

theorem axisRun_iff_runLength (cells : List Cell) (i : Nat) (c : Cell) (d1 d2 : Dir)
    (color : Option Color) (n : Nat) (hc : cells[i]? = some c)
    (h1 : d1.dq ≠ 0 ∨ d1.dr ≠ 0) (h2 : d2.dq ≠ 0 ∨ d2.dr ≠ 0) :
    AxisRun cells c.q c.r d1 d2 (targetOf color c) n ↔
      ∃ m, runLength cells i d1 d2 color = some m ∧ n = 1 + m := by
  unfold AxisRun runLength
  constructor
  · rintro ⟨a, b, ha, hb, rfl⟩
    rw [(countInDirection_iff cells i c d1 color a hc h1).2 ha,
      (countInDirection_iff cells i c d2 color b hc h2).2 hb]
    exact ⟨a + b, rfl, by omega⟩
  · rintro ⟨m, hm, rfl⟩
    cases ha : countInDirection cells i d1 color with
    | none => simp [ha] at hm
    | some a =>
      cases hb : countInDirection cells i d2 color with
      | none => simp [ha, hb] at hm
      | some b =>
        simp only [ha, hb, Option.some.injEq] at hm
        exact ⟨a, b, (countInDirection_iff cells i c d1 color a hc h1).1 ha,
          (countInDirection_iff cells i c d2 color b hc h2).1 hb, by omega⟩

theorem exactlyThree_setState (cells : List Cell) (i : Nat) (c : Cell) (v x : Option Color)
    (hc : cells[i]? = some c) :
    ExactlyThree (setState cells i v) c.q c.r x ↔ ExactlyThree cells c.q c.r x := by
  unfold ExactlyThree
  constructor
  · rintro ⟨pr, hpr, h⟩
    obtain ⟨e1, e2⟩ := dirPairs_ne_zero hpr
    exact ⟨pr, hpr, (axisRun_setState cells i c _ _ _ _ 3 hc e1 e2).1 h⟩
  · rintro ⟨pr, hpr, h⟩
    obtain ⟨e1, e2⟩ := dirPairs_ne_zero hpr
    exact ⟨pr, hpr, (axisRun_setState cells i c _ _ _ _ 3 hc e1 e2).2 h⟩

theorem atLeastFour_setState (cells : List Cell) (i : Nat) (c : Cell) (v x : Option Color)
    (hc : cells[i]? = some c) :
    AtLeastFour (setState cells i v) c.q c.r x ↔ AtLeastFour cells c.q c.r x := by
  unfold AtLeastFour
  constructor
  · rintro ⟨pr, hpr, n, h, hn⟩
    obtain ⟨e1, e2⟩ := dirPairs_ne_zero hpr
    exact ⟨pr, hpr, n, (axisRun_setState cells i c _ _ _ _ n hc e1 e2).1 h, hn⟩
  · rintro ⟨pr, hpr, n, h, hn⟩
    obtain ⟨e1, e2⟩ := dirPairs_ne_zero hpr
    exact ⟨pr, hpr, n, (axisRun_setState cells i c _ _ _ _ n hc e1 e2).2 h, hn⟩


theorem exactlyThree_iff (cells : List Cell) (i : Nat) (c : Cell) (color : Option Color)
    (hc : cells[i]? = some c) :
    ExactlyThree cells c.q c.r (targetOf color c) ↔ exactlyThreeB cells i color = true := by
  unfold ExactlyThree exactlyThreeB
  rw [List.any_eq_true]
  constructor
  · rintro ⟨pr, hpr, h⟩
    obtain ⟨e1, e2⟩ := dirPairs_ne_zero hpr
    obtain ⟨m, hm, hn⟩ := (axisRun_iff_runLength cells i c _ _ color 3 hc e1 e2).1 h
    exact ⟨pr, hpr, by simp [hm, hn]⟩
  · rintro ⟨pr, hpr, h⟩
    obtain ⟨e1, e2⟩ := dirPairs_ne_zero hpr
    refine ⟨pr, hpr, (axisRun_iff_runLength cells i c _ _ color 3 hc e1 e2).2 ?_⟩
    cases hm : runLength cells i pr.1 pr.2 color with
    | none => simp [hm] at h
    | some m =>
      simp only [hm, decide_eq_true_eq] at h
      exact ⟨m, rfl, h.symm⟩

theorem atLeastFour_iff (cells : List Cell) (i : Nat) (c : Cell) (color : Option Color)
    (hc : cells[i]? = some c) :
    AtLeastFour cells c.q c.r (targetOf color c) ↔ atLeastFourB cells i color = true := by
  unfold AtLeastFour atLeastFourB
  rw [List.any_eq_true]
  constructor
  · rintro ⟨pr, hpr, n, h, hn4⟩
    obtain ⟨e1, e2⟩ := dirPairs_ne_zero hpr
    obtain ⟨m, hm, hn⟩ := (axisRun_iff_runLength cells i c _ _ color n hc e1 e2).1 h
    exact ⟨pr, hpr, by simp [hm]; omega⟩
  · rintro ⟨pr, hpr, h⟩
    obtain ⟨e1, e2⟩ := dirPairs_ne_zero hpr
    cases hm : runLength cells i pr.1 pr.2 color with
    | none => simp [hm] at h
    | some m =>
      simp only [hm, decide_eq_true_eq] at h
      exact ⟨pr, hpr, 1 + m,
        (axisRun_iff_runLength cells i c _ _ color (1 + m) hc e1 e2).2 ⟨m, hm, rfl⟩, h⟩


theorem placeStone_next (s s1 : Game) (i : Nat) (h : placeStone s i = some s1)
    (hgo : s1.gameOver = false) :
    s1.currentPlayer = getNextPlayer s.playerCount s.currentPlayer ∧
      s1.playerCount = s.playerCount := by
  unfold placeStone at h
  cases hcr : checkResult (setState s.cells i (some s.currentPlayer)) i with
  | none => simp [hcr] at h
  | some res =>
    obtain ⟨result, cells2⟩ := res
    simp only [hcr] at h
    cases result with
    | none =>
      simp only [Option.some.injEq] at h
      subst h
      exact ⟨rfl, rfl⟩
    | some r =>
      cases r with
      | lose =>
        simp only [Option.some.injEq] at h
        subst h
        simp [endGame] at hgo
      | win =>
        simp only [Option.some.injEq] at h
        subst h
        simp [endGame] at hgo

theorem placeAll_movers (s : Game) (cells : List Nat) (states : List Game)
    (h : placeAll s cells = some states) (hgo : ∀ t ∈ states, t.gameOver = false)
    (k : Nat) (hk : k < states.length) :
    ((s :: states)[k]?).map (fun t => t.currentPlayer)
        = some ((getNextPlayer s.playerCount)^[k] s.currentPlayer) := by
  induction cells generalizing s states k with
  | nil =>
    simp only [placeAll, Option.some.injEq] at h
    subst h
    simp at hk
  | cons i rest ih =>
    cases k with
    | zero => simp
    | succ k =>
      unfold placeAll at h
      cases hp : placeStone s i with
      | none => simp [hp] at h
      | some s1 =>
        cases hr : placeAll s1 rest with
        | none => simp [hp, hr] at h
        | some sts =>
          simp only [hp, hr, Option.some.injEq] at h
          subst h
          obtain ⟨e1, e2⟩ := placeStone_next s s1 i hp (hgo s1 (List.mem_cons_self _ _))
          simp only [List.getElem?_cons_succ, Function.iterate_succ, Function.comp_apply]
          cases sts with
          | nil =>
            simp only [List.length_singleton] at hk
            have : k = 0 := by omega
            subst this
            simp [e1]
          | cons t ts =>
            rcases Nat.eq_zero_or_pos k with hk0 | hkpos
            · subst hk0
              simp [e1]
            · have := ih s1 (t :: ts) hr
                (fun u hu => hgo u (List.mem_cons_of_mem _ hu)) k (by simpa using hk)
              rw [this, e1, e2]

theorem iterate_three (k : Nat) :
    (getNextPlayer 3)^[k] Color.B
      = if k % 3 = 0 then Color.B else if k % 3 = 1 then Color.W else Color.G := by
  induction k with
  | zero => simp
  | succ k ih =>
    rw [Function.iterate_succ_apply', ih]
    have h : k % 3 = 0 ∨ k % 3 = 1 ∨ k % 3 = 2 := by omega
    rcases h with h | h | h
    · have h1 : (k + 1) % 3 = 1 := by omega
      simp [h, h1, getNextPlayer]
    · have h1 : (k + 1) % 3 = 2 := by omega
      simp [h, h1, getNextPlayer]
    · have h1 : (k + 1) % 3 = 0 := by omega
      simp [h, h1, getNextPlayer]


theorem countInDirection_setState (cells : List Cell) (i : Nat) (c : Cell) (dir : Dir)
    (x : Color) (v : Option Color) (hc : cells[i]? = some c)
    (hd : dir.dq ≠ 0 ∨ dir.dr ≠ 0) :
    countInDirection (setState cells i v) i dir (some x)
      = countInDirection cells i dir (some x) := by
  obtain ⟨k, hk⟩ := exists_runExtent cells c.q c.r dir (some x) hd
  have h1 : countInDirection cells i dir (some x) = some k :=
    countInDirection_of_runExtent cells i c dir (some x) k hc hd hk
  have hc1 := setState_getElem?_self cells i v c hc
  have h2 : countInDirection (setState cells i v) i dir (some x) = some k :=
    countInDirection_of_runExtent (setState cells i v) i { c with state := v } dir (some x) k
      hc1 hd ((runExtent_setState cells i c v (some x) dir k hc hd).2 hk)
  rw [h1, h2]

theorem runLength_comm (cells : List Cell) (i : Nat) (d1 d2 : Dir) (color : Option Color) :
    runLength cells i d1 d2 color = runLength cells i d2 d1 color := by
  unfold runLength
  cases countInDirection cells i d1 color <;> cases countInDirection cells i d2 color <;>
    simp [Nat.add_comm]


theorem wouldMakeThree_value (cells : List Cell) (i : Nat) (c : Cell) (p : Color)
    (hc : cells[i]? = some c) :
    ∃ b, wouldMakeThree cells i (some p) = some (b, setState cells i none) ∧
      (b = true ↔ ExactlyThree cells c.q c.r (some p)) ∧
      b = exactlyThreeB cells i (some p) := by
  obtain ⟨b, hb, hiff⟩ := wouldMakeThree_spec cells i c (some p) hc
  refine ⟨b, hb, hiff, ?_⟩
  have h2 := exactlyThree_iff cells i c (some p) hc
  have h3 : b = true ↔ exactlyThreeB cells i (some p) = true := hiff.trans h2
  cases b <;> cases h : exactlyThreeB cells i (some p) <;> simp_all

theorem wouldMakeFour_value (cells : List Cell) (i : Nat) (c : Cell) (p : Color)
    (hc : cells[i]? = some c) :
    ∃ b, wouldMakeFour cells i (some p) = some (b, setState cells i none) ∧
      (b = true ↔ AtLeastFour cells c.q c.r (some p)) ∧
      b = atLeastFourB cells i (some p) := by
  obtain ⟨b, hb, hiff⟩ := wouldMakeFour_spec cells i c (some p) hc
  refine ⟨b, hb, hiff, ?_⟩
  have h2 := atLeastFour_iff cells i c (some p) hc
  have h3 : b = true ↔ atLeastFourB cells i (some p) = true := hiff.trans h2
  cases b <;> cases h : atLeastFourB cells i (some p) <;> simp_all

theorem setState_frame (cells : List Cell) (i : Nat) (v : Option Color) :
    (setState cells i v).length = cells.length ∧
      ∀ j, j ≠ i → (setState cells i v)[j]? = cells[j]? :=
  ⟨setState_length cells i v, fun j hj => setState_getElem?_ne cells i j v hj⟩

theorem createBoard_coords_inHexagon : ∀ c ∈ createBoard, InHexagon c.q c.r := by
  decide

theorem createBoard_find_of_inHexagon :
    ∀ a ∈ List.range 9, ∀ b ∈ List.range 9, InHexagon (b : Int) ((a : Int) - 4) →
      (getCellAt createBoard (b : Int) ((a : Int) - 4)).isSome = true := by
  decide

theorem createBoard_coords_unique :
    ∀ c ∈ createBoard, ∀ c1 ∈ createBoard, c1.q = c.q → c1.r = c.r → c1 = c := by
  decide


theorem getCellAt_createBoard_of_inHexagon (q r : Int) (h : InHexagon q r) :
    ∃ c, getCellAt createBoard q r = some c := by
  have h' := h
  obtain ⟨h1, h2, h3, h4⟩ := h
  have hq0 : 0 ≤ q := le_trans (le_max_left 0 (-r)) h3
  have hq8 : q ≤ 8 := le_trans h4 (min_le_left 8 (8 - r))
  have ea : (((r + 4).toNat : Nat) : Int) - 4 = r := by
    rw [Int.toNat_of_nonneg (by omega)]; omega
  have eb : ((q.toNat : Nat) : Int) = q := Int.toNat_of_nonneg hq0
  have key := createBoard_find_of_inHexagon (r + 4).toNat
    (List.mem_range.2 (by omega)) q.toNat (List.mem_range.2 (by omega))
  rw [ea, eb] at key
  exact Option.isSome_iff_exists.1 (key h')

theorem wouldMakeThree_empty (cells : List Cell) (c : Nat) (cell : Cell) (p : Color)
    (hc : cells[c]? = some cell) (he : cell.state = none) :
    wouldMakeThree cells c (some p) = some (exactlyThreeB cells c (some p), cells) := by
  obtain ⟨b, hb, _, hB⟩ := wouldMakeThree_value cells c cell p hc
  have e : setState cells c none = cells := by
    rw [← he]; exact setState_eq_self cells c cell hc
  rw [hb, e, hB]

theorem wouldMakeFour_empty (cells : List Cell) (c : Nat) (cell : Cell) (p : Color)
    (hc : cells[c]? = some cell) (he : cell.state = none) :
    wouldMakeFour cells c (some p) = some (atLeastFourB cells c (some p), cells) := by
  obtain ⟨b, hb, _, hB⟩ := wouldMakeFour_value cells c cell p hc
  have e : setState cells c none = cells := by
    rw [← he]; exact setState_eq_self cells c cell hc
  rw [hb, e, hB]

theorem validEmpty_cons {cells : List Cell} {c : Nat} {rest : List Nat}
    (h : ValidEmpty cells (c :: rest)) :
    (∃ cell, cells[c]? = some cell ∧ cell.state = none) ∧ ValidEmpty cells rest :=
  ⟨h c (List.mem_cons_self _ _), fun x hx => h x (List.mem_cons_of_mem _ hx)⟩

theorem filterSafe_eq (cells : List Cell) (p : Color) (l : List Nat)
    (hv : ValidEmpty cells l) :
    filterSafe p cells l
      = some (l.filter (fun c => !exactlyThreeB cells c (some p)), cells) := by
  induction l with
  | nil => rfl
  | cons c rest ih =>
    obtain ⟨⟨cell, hc, he⟩, hrest⟩ := validEmpty_cons hv
    simp only [filterSafe, wouldMakeThree_empty cells c cell p hc he, ih hrest,
      List.filter_cons]
    cases exactlyThreeB cells c (some p) <;> simp

theorem firstFour_eq (cells : List Cell) (p : Color) (l : List Nat)
    (hv : ValidEmpty cells l) :
    firstFour p cells l = some (l.find? (fun c => atLeastFourB cells c (some p)), cells) := by
  induction l with
  | nil => rfl
  | cons c rest ih =>
    obtain ⟨⟨cell, hc, he⟩, hrest⟩ := validEmpty_cons hv
    simp only [firstFour, wouldMakeFour_empty cells c cell p hc he, ih hrest, List.find?_cons]
    cases atLeastFourB cells c (some p) <;> simp

theorem firstBlock_eq (cells : List Cell) (l : List Nat) (opps : List Color)
    (hv : ValidEmpty cells l) :
    firstBlock l cells opps
      = some (opps.findSome? (fun opp => l.find? (fun c => atLeastFourB cells c (some opp))),
          cells) := by
  induction opps with
  | nil => rfl
  | cons opp rest ih =>
    simp only [firstBlock, firstFour_eq cells opp l hv, List.findSome?_cons]
    cases l.find? (fun c => atLeastFourB cells c (some opp)) with
    | none => simp [ih]
    | some c => simp

theorem two_roundToDouble_le (a : Nat) :
    2 * roundToDouble a ≤ 2 * a + 2 ^ (a.log2 - 52) := by
  unfold roundToDouble
  simp only
  have hdm := Nat.div_add_mod a (2 ^ (a.log2 - 52))
  generalize 2 ^ (a.log2 - 52) = P at hdm ⊢
  generalize a / P = q at hdm ⊢
  generalize a % P = r at hdm ⊢
  split
  · next h =>
    have hr : P ≤ 2 * r := by
      rcases h with h | h
      · omega
      · omega
    have : (q + 1) * P = P * q + P := by ring
    rw [this]
    omega
  · have : q * P = P * q := Nat.mul_comm _ _
    rw [this]
    omega

theorem pow_shift_le (a : Nat) (hs : 1 ≤ a.log2 - 52) :
    2 ^ (a.log2 - 52) * 2 ^ 52 ≤ a := by
  have ha : a ≠ 0 := by
    rintro rfl
    simp [Nat.log2_zero] at hs
  have := Nat.log2_self_le ha
  have e : a.log2 - 52 + 52 = a.log2 := by omega
  rw [← pow_add, e]
  exact this

theorem double_below_one_le (m e : Nat) (hm : m < 2 ^ 53) (hlt : m * 2 ^ e < 2 ^ 1074) :
    m * 2 ^ e + 2 ^ 1021 ≤ 2 ^ 1074 := by
  have h74 : (2 : Nat) ^ 1074 = 2 ^ 53 * 2 ^ 1021 := by rw [← pow_add]
  rcases Nat.lt_or_ge e 1021 with he | he
  · have h1 : (2 : Nat) ^ e ≤ 2 ^ 1020 := pow_le_pow_right₀ (by norm_num) (by omega)
    have h2 : m * 2 ^ e ≤ 2 ^ 53 * 2 ^ 1020 := Nat.mul_le_mul (le_of_lt hm) h1
    have h3 : (2 : Nat) ^ 1021 = 2 * 2 ^ 1020 := by rw [← pow_succ']
    rw [h74, h3]
    generalize (2 : Nat) ^ 1020 = V at *
    have : (2 : Nat) ^ 53 = 9007199254740992 := by norm_num
    rw [this] at h2 ⊢
    omega
  · have h1 : (2 : Nat) ^ e = 2 ^ (e - 1021) * 2 ^ 1021 := by
      rw [← pow_add, Nat.sub_add_cancel he]
    rw [h1, h74, ← Nat.mul_assoc] at hlt
    rw [h1, h74, ← Nat.mul_assoc]
    have hU : 0 < (2 : Nat) ^ 1021 := pow_pos (by norm_num) _
    have h2 : m * 2 ^ (e - 1021) < 2 ^ 53 := Nat.lt_of_mul_lt_mul_right hlt
    generalize m * 2 ^ (e - 1021) = w at *
    generalize (2 : Nat) ^ 1021 = U at *
    have : (w + 1) * U ≤ 2 ^ 53 * U := Nat.mul_le_mul_right U h2
    have e2 : (w + 1) * U = w * U + U := by ring
    omega

theorem randomIndex_lt (rnd : Rand) (n : Nat) (hd : IsDouble rnd) (hr : rnd.num < rnd.den)
    (hn : 0 < n) : randomIndex rnd n < n := by
  obtain ⟨hden, m, e, hm, hme⟩ := hd
  have hk : rnd.num * 2 ^ 1074 / rnd.den = m * 2 ^ e := by
    rw [hme]; exact Nat.mul_div_cancel _ hden
  have hklt : m * 2 ^ e < 2 ^ 1074 := by
    have h1 : rnd.num * 2 ^ 1074 < rnd.den * 2 ^ 1074 :=
      Nat.mul_lt_mul_of_lt_of_le hr (le_refl _) (pow_pos (by norm_num) _)
    rw [hme, Nat.mul_comm rnd.den] at h1
    exact Nat.lt_of_mul_lt_mul_right h1
  have hkle := double_below_one_le m e hm hklt
  unfold randomIndex
  rw [hk, Nat.div_lt_iff_lt_mul (pow_pos (by norm_num) _)]
  have h74 : (2 : Nat) ^ 1074 = 2 ^ 53 * 2 ^ 1021 := by rw [← pow_add]
  have hround := two_roundToDouble_le (m * 2 ^ e * n)
  have ha : m * 2 ^ e * n + n * 2 ^ 1021 ≤ n * 2 ^ 1074 := by
    have := Nat.mul_le_mul_right n hkle
    have e1 : (m * 2 ^ e + 2 ^ 1021) * n = m * 2 ^ e * n + n * 2 ^ 1021 := by ring
    have e2 : 2 ^ 1074 * n = n * 2 ^ 1074 := Nat.mul_comm _ _
    omega
  have hUpos : 0 < (2 : Nat) ^ 1021 := pow_pos (by norm_num) _
  have hnU : 0 < n * 2 ^ 1021 := Nat.mul_pos hn hUpos
  rcases Nat.eq_zero_or_pos ((m * 2 ^ e * n).log2 - 52) with hs | hs
  · rw [hs, pow_zero] at hround
    omega
  · have hB := pow_shift_le (m * 2 ^ e * n) hs
    have hP : 2 ^ ((m * 2 ^ e * n).log2 - 52) < 2 * (n * 2 ^ 1021) := by
      have h1 : 2 ^ ((m * 2 ^ e * n).log2 - 52) * 2 ^ 52 < n * 2 ^ 1074 := by omega
      have e3 : n * 2 ^ 1074 = 2 * (n * 2 ^ 1021) * 2 ^ 52 := by
        rw [h74]
        have : (2 : Nat) ^ 53 = 2 * 2 ^ 52 := by rw [← pow_succ']
        rw [this]; ring
      rw [e3] at h1
      exact Nat.lt_of_mul_lt_mul_right h1
    omega

theorem roundToDouble_eval (a s q r : Nat) (hlo : 2 ^ (s + 52) ≤ a) (hhi : a < 2 ^ (s + 53))
    (hqr : a = q * 2 ^ s + r) (hr : r < 2 ^ s) :
    roundToDouble a
      = if 2 * r > 2 ^ s ∨ (2 * r = 2 ^ s ∧ q % 2 = 1) then (q + 1) * 2 ^ s else q * 2 ^ s := by
  have ha : a ≠ 0 := by
    intro h0
    have := Nat.two_pow_pos (s + 52)
    omega
  have hlog : a.log2 = s + 52 := by
    apply Nat.eq_of_le_of_lt_succ
    · exact (Nat.le_log2 ha).2 hlo
    · exact (Nat.log2_lt ha).2 hhi
  have hs : a.log2 - 52 = s := by omega
  have hq : a / 2 ^ s = q := by
    rw [hqr, Nat.mul_comm q, Nat.mul_add_div (Nat.two_pow_pos s), Nat.div_eq_of_lt hr,
      Nat.add_zero]
  have hm : a % 2 ^ s = r := by
    rw [hqr, Nat.mul_comm q, Nat.mul_add_mod, Nat.mod_eq_of_lt hr]
  unfold roundToDouble
  simp only [hs, hq, hm]

theorem randomIndex_two_thirds (rnd : Rand) (h1 : rnd.num = 6004799503160661)
    (h2 : rnd.den = 2 ^ 53) : randomIndex rnd 3 = 2 := by
  have h74 : (2 : Nat) ^ 1074 = 2 ^ 1021 * 2 ^ 53 := by rw [← pow_add]
  have hk : 6004799503160661 * 2 ^ 1074 / 2 ^ 53 = 6004799503160661 * 2 ^ 1021 := by
    rw [h74, ← Nat.mul_assoc]
    exact Nat.mul_div_cancel _ (Nat.two_pow_pos 53)
  have e1 : (2 : Nat) ^ (1022 + 52) = 9007199254740992 * 2 ^ 1021 := by
    rw [show 1022 + 52 = 53 + 1021 from rfl, pow_add]; norm_num
  have e2 : (2 : Nat) ^ (1022 + 53) = 18014398509481984 * 2 ^ 1021 := by
    rw [show 1022 + 53 = 54 + 1021 from rfl, pow_add]; norm_num
  have e3 : (2 : Nat) ^ 1022 = 2 * 2 ^ 1021 := by rw [← pow_succ']
  have e4 : (2 : Nat) ^ 1074 = 9007199254740992 * 2 ^ 1021 := by
    rw [show 1074 = 53 + 1021 from rfl, pow_add]; norm_num
  have hU : 0 < (2 : Nat) ^ 1021 := pow_pos (by norm_num) _
  have hr := roundToDouble_eval (6004799503160661 * 2 ^ 1021 * 3) 1022 9007199254740991
    (2 ^ 1021) (by rw [e1]; omega) (by rw [e2]; omega) (by rw [e3]; omega) (by rw [e3]; omega)
  have hup : 2 * 2 ^ 1021 > 2 ^ 1022 ∨ (2 * 2 ^ 1021 = 2 ^ 1022 ∧ 9007199254740991 % 2 = 1) :=
    Or.inr ⟨e3.symm, by norm_num⟩
  rw [if_pos hup] at hr
  unfold randomIndex
  rw [h1, h2, hk, hr, e3, e4]
  apply Nat.div_eq_of_eq_mul_right (Nat.mul_pos (by norm_num) hU)
  ring

theorem randomIndex_twelve_sixty_firsts (rnd : Rand) (h1 : rnd.num = 885954025056491)
    (h2 : rnd.den = 2 ^ 52) : randomIndex rnd 61 = 12 := by
  have h74 : (2 : Nat) ^ 1074 = 2 ^ 1022 * 2 ^ 52 := by rw [← pow_add]
  have hk : 885954025056491 * 2 ^ 1074 / 2 ^ 52 = 885954025056491 * 2 ^ 1022 := by
    rw [h74, ← Nat.mul_assoc]
    exact Nat.mul_div_cancel _ (Nat.two_pow_pos 52)
  have e1 : (2 : Nat) ^ (1025 + 52) = 36028797018963968 * 2 ^ 1022 := by
    rw [show 1025 + 52 = 55 + 1022 from rfl, pow_add]; norm_num
  have e2 : (2 : Nat) ^ (1025 + 53) = 72057594037927936 * 2 ^ 1022 := by
    rw [show 1025 + 53 = 56 + 1022 from rfl, pow_add]; norm_num
  have e3 : (2 : Nat) ^ 1025 = 8 * 2 ^ 1022 := by
    rw [show 1025 = 3 + 1022 from rfl, pow_add]; norm_num
  have e4 : (2 : Nat) ^ 1074 = 4503599627370496 * 2 ^ 1022 := by
    rw [show 1074 = 52 + 1022 from rfl, pow_add]; norm_num
  have hU : 0 < (2 : Nat) ^ 1022 := pow_pos (by norm_num) _
  have hr := roundToDouble_eval (885954025056491 * 2 ^ 1022 * 61) 1025 6755399441055743
    (7 * 2 ^ 1022) (by rw [e1]; omega) (by rw [e2]; omega) (by rw [e3]; omega)
    (by rw [e3]; omega)
  have hup : 2 * (7 * 2 ^ 1022) > 2 ^ 1025 ∨
      (2 * (7 * 2 ^ 1022) = 2 ^ 1025 ∧ 6755399441055743 % 2 = 1) :=
    Or.inl (by rw [e3]; omega)
  rw [if_pos hup] at hr
  unfold randomIndex
  rw [h1, h2, hk, hr, e3, e4]
  apply Nat.div_eq_of_eq_mul_right (Nat.mul_pos (by norm_num) hU)
  ring

theorem isDouble_half : IsDouble ⟨1, 2⟩ := ⟨by decide, 1, 1073, by decide, by ring⟩

theorem isDouble_mk (m e b : Nat) (hm : m < 2 ^ 53) (hb : e + b = 1074) :
    IsDouble ⟨m, 2 ^ b⟩ := by
  refine ⟨Nat.two_pow_pos b, m, e, hm, ?_⟩
  simp only
  rw [Nat.mul_assoc, ← pow_add, hb]

theorem isDouble_two_thirds : IsDouble ⟨6004799503160661, 2 ^ 53⟩ :=
  isDouble_mk 6004799503160661 1021 53 (by norm_num) rfl

theorem npcLevel1_eq (cells : List Cell) (p : Color) (l : List Nat) (rnd : Rand)
    (hv : ValidEmpty cells l) :
    npcLevel1 cells p l rnd
      = some (if (l.filter (fun c => !exactlyThreeB cells c (some p))).length > 0 then
          (l.filter (fun c => !exactlyThreeB cells c (some p)))[randomIndex rnd
            (l.filter (fun c => !exactlyThreeB cells c (some p))).length]?
        else l[randomIndex rnd l.length]?, cells) := by
  simp only [npcLevel1, filterSafe_eq cells p l hv]
  split <;> rfl

theorem npcLevel2_own (cells : List Cell) (pc : Int) (m : Color) (l : List Nat) (rnd : Rand)
    (c : Nat) (hv : ValidEmpty cells l)
    (h : l.find? (fun c => atLeastFourB cells c (some m)) = some c) :
    npcLevel2 cells pc m l rnd = some (some c, cells) := by
  simp only [npcLevel2, firstFour_eq cells m l hv, h]

theorem npcLevel2_block (cells : List Cell) (pc : Int) (m : Color) (l : List Nat) (rnd : Rand)
    (c : Nat) (hv : ValidEmpty cells l)
    (h : l.find? (fun c => atLeastFourB cells c (some m)) = none)
    (hb : (getOpponents pc m).findSome?
      (fun opp => l.find? (fun c => atLeastFourB cells c (some opp))) = some c) :
    npcLevel2 cells pc m l rnd = some (some c, cells) := by
  simp only [npcLevel2, firstFour_eq cells m l hv, h, firstBlock_eq cells l _ hv, hb]

theorem mapM_scored (cells : List Cell) (l : List Nat) (hv : ValidEmpty cells l) :
    l.mapM (fun c => (cells[c]?).map fun cell =>
        ({ cell := c, score := getCenterScore cell } : Scored))
      = some (l.map fun c => ({ cell := c, score := scoreAt cells c } : Scored)) := by
  induction l with
  | nil => rfl
  | cons c rest ih =>
    obtain ⟨⟨cell, hc, _⟩, hrest⟩ := validEmpty_cons hv
    rw [List.mapM_cons, ih hrest, hc]
    simp [scoreAt, hc]

theorem npcLevel2_rest (cells : List Cell) (pc : Int) (m : Color) (l : List Nat) (rnd : Rand)
    (hv : ValidEmpty cells l)
    (h : l.find? (fun c => atLeastFourB cells c (some m)) = none)
    (hb : (getOpponents pc m).findSome?
      (fun opp => l.find? (fun c => atLeastFourB cells c (some opp))) = none) :
    npcLevel2 cells pc m l rnd =
      if (safeCellsOf cells m l).length > 0 then
        match ((rankedSafe cells m l).take 3)[randomIndex rnd
            ((rankedSafe cells m l).take 3).length]? with
        | none => none
        | some entry => some (some entry.cell, cells)
      else some (l[randomIndex rnd l.length]?, cells) := by
  have hvs : ValidEmpty cells (l.filter (fun c => !exactlyThreeB cells c (some m))) :=
    fun c hc => hv c (List.mem_filter.1 hc).1
  unfold rankedSafe safeCellsOf
  simp only [npcLevel2, firstFour_eq cells m l hv, h, firstBlock_eq cells l _ hv, hb,
    filterSafe_eq cells m l hv, mapM_scored cells _ hvs]

theorem wouldMakeFour_valid (cells : List Cell) (l : List Nat) (hv : ValidEmpty cells l)
    (x : Nat) (hx : x ∈ l) (p : Color) (b : Bool) :
    wouldMakeFour cells x (some p) = some (b, cells) ↔ atLeastFourB cells x (some p) = b := by
  obtain ⟨cell, hc, he⟩ := hv x hx
  rw [wouldMakeFour_empty cells x cell p hc he]
  simp

theorem wouldMakeThree_valid (cells : List Cell) (l : List Nat) (hv : ValidEmpty cells l)
    (x : Nat) (hx : x ∈ l) (p : Color) (b : Bool) :
    wouldMakeThree cells x (some p) = some (b, cells) ↔ exactlyThreeB cells x (some p) = b := by
  obtain ⟨cell, hc, he⟩ := hv x hx
  rw [wouldMakeThree_empty cells x cell p hc he]
  simp

theorem find_four_first (cells : List Cell) (l : List Nat) (hv : ValidEmpty cells l)
    (p : Color) (h : ∃ c ∈ l, wouldMakeFour cells c (some p) = some (true, cells)) :
    ∃ c pre post, l = pre ++ c :: post ∧
      (∀ x ∈ pre, wouldMakeFour cells x (some p) = some (false, cells)) ∧
      wouldMakeFour cells c (some p) = some (true, cells) ∧
      l.find? (fun c => atLeastFourB cells c (some p)) = some c := by
  obtain ⟨c0, hc0, h0⟩ := h
  have hB0 := (wouldMakeFour_valid cells l hv c0 hc0 p true).1 h0
  cases hf : l.find? (fun c => atLeastFourB cells c (some p)) with
  | none =>
    rw [List.find?_eq_none] at hf
    exact absurd hB0 (hf c0 hc0)
  | some c =>
    obtain ⟨hpc, pre, post, hl, hpre⟩ := List.find?_eq_some.1 hf
    have hmem : ∀ x ∈ pre, x ∈ l := fun x hx => by rw [hl]; simp [hx]
    have hcm : c ∈ l := by rw [hl]; simp
    refine ⟨c, pre, post, hl, fun x hx => ?_, ?_, rfl⟩
    · rw [wouldMakeFour_valid cells l hv x (hmem x hx) p false]
      have := hpre x hx
      simpa using this
    · rw [wouldMakeFour_valid cells l hv c hcm p true]
      exact hpc

theorem poisonedWin_valid : ValidEmpty poisonedWin.cells (emptyCellsOf poisonedWin.cells) := by
  unfold ValidEmpty
  decide

theorem poisonedWin_no_four_W : ∀ x ∈ emptyCellsOf poisonedWin.cells,
    atLeastFourB poisonedWin.cells x (some Color.W) = false := by
  decide

theorem poisonedWin_only_four_B : ∀ x ∈ emptyCellsOf poisonedWin.cells,
    atLeastFourB poisonedWin.cells x (some Color.B) = true → x = indexOf createBoard 4 0 := by
  decide

theorem sortScored_sorted (l : List Scored) :
    (sortScored l).Sorted (fun a b => a.score ≥ b.score) := by
  haveI : IsTotal Scored (fun a b => a.score ≥ b.score) :=
    ⟨fun a b => le_total b.score a.score⟩
  haveI : IsTrans Scored (fun a b => a.score ≥ b.score) :=
    ⟨fun a b c hab hbc => le_trans hbc hab⟩
  exact List.sorted_insertionSort _ l

theorem sortScored_perm (l : List Scored) : (sortScored l).Perm l :=
  List.perm_insertionSort _ l

theorem sortScored_stable (l : List Scored) (v : Int) :
    (sortScored l).filter (fun a => decide (a.score = v))
      = l.filter (fun a => decide (a.score = v)) := by
  haveI : IsTotal Scored (fun a b => a.score ≥ b.score) :=
    ⟨fun a b => le_total b.score a.score⟩
  haveI : IsTrans Scored (fun a b => a.score ≥ b.score) :=
    ⟨fun a b c hab hbc => le_trans hbc hab⟩
  have hpw : (l.filter (fun a => decide (a.score = v))).Pairwise
      (fun a b => a.score ≥ b.score) := by
    rw [List.pairwise_iff_forall_sublist]
    intro a b hab
    have ha : a ∈ l.filter (fun a => decide (a.score = v)) := hab.subset (by simp)
    have hb : b ∈ l.filter (fun a => decide (a.score = v)) := hab.subset (by simp)
    simp only [List.mem_filter, decide_eq_true_eq] at ha hb
    rw [ha.2, hb.2]
  have hsub : List.Sublist (l.filter (fun a => decide (a.score = v))) (sortScored l) :=
    List.sublist_insertionSort hpw (List.filter_sublist l)
  have hsub2 : List.Sublist (l.filter (fun a => decide (a.score = v)))
      ((sortScored l).filter (fun a => decide (a.score = v))) := by
    have := hsub.filter (fun a => decide (a.score = v))
    simpa [List.filter_filter] using this
  have hlen : ((sortScored l).filter (fun a => decide (a.score = v))).length
      = (l.filter (fun a => decide (a.score = v))).length :=
    ((sortScored_perm l).filter _).length_eq
  exact (hsub2.eq_of_length hlen.symm).symm

theorem sorted_higher_count (l : List Scored)
    (hs : l.Sorted (fun a b => a.score ≥ b.score)) (j : Nat) (hj : j < l.length) :
    (l.filter (fun a => decide (a.score > l[j].score))).length ≤ j := by
  have hsplit : l = l.take j ++ l.drop j := (List.take_append_drop j l).symm
  have hdrop : l.drop j = l[j] :: l.drop (j + 1) := List.drop_eq_getElem_cons hj
  have hpw : (l.drop j).Pairwise (fun a b => a.score ≥ b.score) :=
    List.Pairwise.sublist (List.drop_sublist j l) hs
  rw [hdrop, List.pairwise_cons] at hpw
  have hnone : (l.drop j).filter (fun a => decide (a.score > l[j].score)) = [] := by
    rw [List.filter_eq_nil_iff]
    intro a ha
    rw [hdrop, List.mem_cons] at ha
    simp only [decide_eq_true_eq, not_lt]
    rcases ha with rfl | ha
    · exact le_refl _
    · exact hpw.1 a ha
  calc (l.filter (fun a => decide (a.score > l[j].score))).length
      = ((l.take j ++ l.drop j).filter (fun a => decide (a.score > l[j].score))).length := by
        rw [← hsplit]
    _ = ((l.take j).filter (fun a => decide (a.score > l[j].score))).length := by
        rw [List.filter_append, hnone, List.append_nil]
    _ ≤ (l.take j).length := List.length_filter_le _ _
    _ ≤ j := by rw [List.length_take]; exact Nat.min_le_left _ _

theorem rankedSafe_entry (cells : List Cell) (m : Color) (l : List Nat) (e : Scored)
    (he : e ∈ rankedSafe cells m l) :
    e.cell ∈ safeCellsOf cells m l ∧ e.score = scoreAt cells e.cell := by
  have h1 : e ∈ (safeCellsOf cells m l).map fun c =>
      ({ cell := c, score := scoreAt cells c } : Scored) :=
    (sortScored_perm _).mem_iff.1 he
  rw [List.mem_map] at h1
  obtain ⟨c, hc, rfl⟩ := h1
  exact ⟨hc, rfl⟩

theorem higher_count_le (cells : List Cell) (m : Color) (l : List Nat) (j : Nat)
    (hj : j < (rankedSafe cells m l).length) :
    ((safeCellsOf cells m l).filter
      (fun x => decide (scoreAt cells x > ((rankedSafe cells m l)[j]).score))).length ≤ j := by
  have h1 := sorted_higher_count (rankedSafe cells m l) (sortScored_sorted _) j hj
  have h2 : ((rankedSafe cells m l).filter
      (fun a => decide (a.score > ((rankedSafe cells m l)[j]).score))).length
      = (((safeCellsOf cells m l).map fun c =>
          ({ cell := c, score := scoreAt cells c } : Scored)).filter
          (fun a => decide (a.score > ((rankedSafe cells m l)[j]).score))).length :=
    ((sortScored_perm _).filter _).length_eq
  rw [h2, List.filter_map, List.length_map] at h1
  exact h1

theorem freshGame_valid : ValidEmpty freshGame.cells (emptyCellsOf freshGame.cells) := by
  unfold ValidEmpty
  decide

theorem freshGame_no_four : ∀ p : Color, ∀ x ∈ emptyCellsOf freshGame.cells,
    atLeastFourB freshGame.cells x (some p) = false := by
  intro p
  cases p <;> decide

theorem walk_append (p : Int × Int) (s t : List Dir) :
    walk p (s ++ t) = walk (walk p s) t := by
  induction s generalizing p with
  | nil => rfl
  | cons d rest ih => exact ih _

theorem walk_replicate (p : Int × Int) (d : Dir) (k : Nat) :
    walk p (List.replicate k d) = (p.1 + k * d.dq, p.2 + k * d.dr) := by
  induction k generalizing p with
  | zero => simp [walk]
  | succ k ih =>
    simp only [List.replicate_succ, walk, ih]
    ext <;> simp only <;> push_cast <;> ring

theorem walk_sum_bound (p : Int × Int) (steps : List Dir)
    (h : ∀ d ∈ steps, d ∈ directions) :
    (walk p steps).1 + (walk p steps).2 ≤ p.1 + p.2 + steps.length := by
  induction steps generalizing p with
  | nil => simp [walk]
  | cons d rest ih =>
    have hd := h d (List.mem_cons_self _ _)
    have := ih (p.1 + d.dq, p.2 + d.dr) (fun x hx => h x (List.mem_cons_of_mem _ hx))
    simp only [walk, List.length_cons]
    simp only [directions, List.mem_cons, List.mem_singleton, List.not_mem_nil,
      or_false] at hd
    push_cast
    rcases hd with rfl | rfl | rfl | rfl | rfl | rfl <;> simp only at this ⊢ <;> omega

theorem walk_manhattan_bound (p : Int × Int) (steps : List Dir)
    (h : ∀ d ∈ steps, d ∈ directions) :
    |(walk p steps).1 - 4| + |(walk p steps).2| ≤ |p.1 - 4| + |p.2| + 2 * steps.length := by
  induction steps generalizing p with
  | nil => simp [walk]
  | cons d rest ih =>
    have hd := h d (List.mem_cons_self _ _)
    have := ih (p.1 + d.dq, p.2 + d.dr) (fun x hx => h x (List.mem_cons_of_mem _ hx))
    simp only [walk, List.length_cons]
    simp only [directions, List.mem_cons, List.mem_singleton, List.not_mem_nil,
      or_false] at hd
    push_cast
    have e1 : |p.1 + d.dq - 4| ≤ |p.1 - 4| + |d.dq| := by
      have : p.1 + d.dq - 4 = (p.1 - 4) + d.dq := by ring
      rw [this]; exact abs_add _ _
    have e2 : |p.2 + d.dr| ≤ |p.2| + |d.dr| := abs_add _ _
    have e3 : |d.dq| ≤ 1 ∧ |d.dr| ≤ 1 := by
      rcases hd with rfl | rfl | rfl | rfl | rfl | rfl <;> simp
    simp only at this
    linarith [e3.1, e3.2]

theorem withinSteps_of_axis_steps (q r : Int) (d1 d2 : Dir) (h1 : d1 ∈ directions)
    (h2 : d2 ∈ directions)
    (hq : 4 + ((q - 4).natAbs : Int) * d1.dq + (r.natAbs : Int) * d2.dq = q)
    (hr : 0 + ((q - 4).natAbs : Int) * d1.dr + (r.natAbs : Int) * d2.dr = r) :
    WithinSteps (|q - 4| + |r|).toNat q r := by
  refine ⟨List.replicate (q - 4).natAbs d1 ++ List.replicate r.natAbs d2, ?_, ?_, ?_⟩
  · simp only [List.length_append, List.length_replicate]
    have e1 : ((q - 4).natAbs : Int) = |q - 4| := Int.natCast_natAbs _
    have e2 : (r.natAbs : Int) = |r| := Int.natCast_natAbs _
    omega
  · intro d hd
    rw [List.mem_append] at hd
    rcases hd with hd | hd
    · rw [List.eq_of_mem_replicate hd]; exact h1
    · rw [List.eq_of_mem_replicate hd]; exact h2
  · rw [walk_append, walk_replicate, walk_replicate]
    simp only [hq, hr]

theorem withinSteps_manhattan (q r : Int) :
    WithinSteps (|q - 4| + |r|).toNat q r := by
  rcases le_total 0 (q - 4) with hq | hq <;> rcases le_total 0 r with hr | hr
  · apply withinSteps_of_axis_steps q r ⟨1, 0⟩ ⟨0, 1⟩ (by decide) (by decide)
    · simp only; have := Int.natAbs_of_nonneg hq; omega
    · simp only; have := Int.natAbs_of_nonneg hr; omega
  · apply withinSteps_of_axis_steps q r ⟨1, 0⟩ ⟨0, -1⟩ (by decide) (by decide)
    · simp only; have := Int.natAbs_of_nonneg hq; omega
    · simp only; have := Int.ofNat_natAbs_of_nonpos hr; omega
  · apply withinSteps_of_axis_steps q r ⟨-1, 0⟩ ⟨0, 1⟩ (by decide) (by decide)
    · simp only; have := Int.ofNat_natAbs_of_nonpos hq; omega
    · simp only; have := Int.natAbs_of_nonneg hr; omega
  · apply withinSteps_of_axis_steps q r ⟨-1, 0⟩ ⟨0, -1⟩ (by decide) (by decide)
    · simp only; have := Int.ofNat_natAbs_of_nonpos hq; omega
    · simp only; have := Int.ofNat_natAbs_of_nonpos hr; omega

theorem withinSteps_mono {n k : Nat} {q r : Int} (h : WithinSteps n q r) (hnk : n ≤ k) :
    WithinSteps k q r := by
  obtain ⟨steps, h1, h2, h3⟩ := h
  exact ⟨steps, le_trans h1 hnk, h2, h3⟩

theorem npcLevel2_rest_pick (cells : List Cell) (pc : Int) (m : Color) (l : List Nat)
    (rnd : Rand) (hv : ValidEmpty cells l) (hd : IsDouble rnd) (hr : rnd.num < rnd.den)
    (hown : l.find? (fun c => atLeastFourB cells c (some m)) = none)
    (hb : (getOpponents pc m).findSome?
      (fun opp => l.find? (fun c => atLeastFourB cells c (some opp))) = none)
    (hpos : 0 < (safeCellsOf cells m l).length) :
    ∃ c, npcLevel2 cells pc m l rnd = some (some c, cells) ∧ c ∈ safeCellsOf cells m l := by
  have hlen : (rankedSafe cells m l).length = (safeCellsOf cells m l).length := by
    unfold rankedSafe
    rw [(sortScored_perm _).length_eq, List.length_map]
  have htake : ((rankedSafe cells m l).take 3).length
      = min 3 (rankedSafe cells m l).length := List.length_take _ _
  have hmin1 := Nat.min_le_left 3 (rankedSafe cells m l).length
  have hmin2 := Nat.min_le_right 3 (rankedSafe cells m l).length
  have htop : 0 < ((rankedSafe cells m l).take 3).length := by
    rw [htake, hlen]
    exact Nat.lt_min.2 ⟨by omega, hpos⟩
  have hri := randomIndex_lt rnd _ hd hr htop
  have hri3 : randomIndex rnd ((rankedSafe cells m l).take 3).length < 3 := by omega
  have hriLen : randomIndex rnd ((rankedSafe cells m l).take 3).length
      < (rankedSafe cells m l).length := by omega
  have hget : ((rankedSafe cells m l).take 3)[randomIndex rnd
      ((rankedSafe cells m l).take 3).length]?
      = some ((rankedSafe cells m l)[randomIndex rnd
        ((rankedSafe cells m l).take 3).length]) := by
    rw [List.getElem?_take_of_lt hri3, List.getElem?_eq_getElem hriLen]
  obtain ⟨hmem, _⟩ := rankedSafe_entry cells m l _ (List.getElem_mem hriLen)
  refine ⟨_, ?_, hmem⟩
  rw [npcLevel2_rest cells pc m l rnd hv hown hb, if_pos hpos, hget]

theorem npcLevel2_member (cells : List Cell) (pc : Int) (m : Color) (l : List Nat)
    (rnd : Rand) (hv : ValidEmpty cells l) (hd : IsDouble rnd) (hr : rnd.num < rnd.den)
    (hne : l ≠ []) :
    ∃ c, npcLevel2 cells pc m l rnd = some (some c, cells) ∧ c ∈ l := by
  cases hown : l.find? (fun c => atLeastFourB cells c (some m)) with
  | some c =>
    exact ⟨c, npcLevel2_own cells pc m l rnd c hv hown, List.mem_of_find?_eq_some hown⟩
  | none =>
    cases hb : (getOpponents pc m).findSome?
        (fun opp => l.find? (fun c => atLeastFourB cells c (some opp))) with
    | some c =>
      obtain ⟨_, opp, _, _, hfind, _⟩ := List.findSome?_eq_some_iff.1 hb
      exact ⟨c, npcLevel2_block cells pc m l rnd c hv hown hb,
        List.mem_of_find?_eq_some hfind⟩
    | none =>
      rcases Nat.eq_zero_or_pos (safeCellsOf cells m l).length with h0 | hpos
      · have hlpos : 0 < l.length := List.length_pos.2 hne
        have hlt := randomIndex_lt rnd l.length hd hr hlpos
        refine ⟨l[randomIndex rnd l.length], ?_, List.getElem_mem _⟩
        rw [npcLevel2_rest cells pc m l rnd hv hown hb, if_neg (by omega),
          List.getElem?_eq_getElem hlt]
      · obtain ⟨c, hres, hmem⟩ := npcLevel2_rest_pick cells pc m l rnd hv hd hr hown hb hpos
        exact ⟨c, hres, (List.mem_filter.1 hmem).1⟩

theorem npcLevel1_member (cells : List Cell) (m : Color) (l : List Nat)
    (rnd : Rand) (hv : ValidEmpty cells l) (hd : IsDouble rnd) (hr : rnd.num < rnd.den)
    (hne : l ≠ []) :
    ∃ c, npcLevel1 cells m l rnd = some (some c, cells) ∧ c ∈ l := by
  rw [npcLevel1_eq cells m l rnd hv]
  split
  · next hpos =>
    have hlt := randomIndex_lt rnd _ hd hr hpos
    refine ⟨_, ?_, (List.mem_filter.1 (List.getElem_mem hlt)).1⟩
    rw [List.getElem?_eq_getElem hlt]
  · have hlpos : 0 < l.length := List.length_pos.2 hne
    have hlt := randomIndex_lt rnd l.length hd hr hlpos
    exact ⟨l[randomIndex rnd l.length], by rw [List.getElem?_eq_getElem hlt],
      List.getElem_mem _⟩

theorem inHexagon_bounds {q r : Int} (h : InHexagon q r) :
    0 ≤ q ∧ q ≤ 8 ∧ -4 ≤ r ∧ r ≤ 4 := by
  obtain ⟨h1, h2, h3, h4⟩ := h
  exact ⟨le_trans (le_max_left 0 (-r)) h3, le_trans h4 (min_le_left 8 (8 - r)), h1, h2⟩

theorem isBoard_mem_bounds {cells : List Cell} (hb : IsBoard cells) {n : Cell}
    (hn : n ∈ cells) : 0 ≤ n.q ∧ n.q ≤ 8 ∧ -4 ≤ n.r ∧ n.r ≤ 4 := by
  have h1 : (n.q, n.r) ∈ cells.map (fun c => (c.q, c.r)) :=
    List.mem_map.2 ⟨n, hn, rfl⟩
  rw [hb, List.mem_map] at h1
  obtain ⟨c, hc, he⟩ := h1
  simp only [Prod.mk.injEq] at he
  have := inHexagon_bounds (createBoard_coords_inHexagon c hc)
  rw [he.1, he.2] at this
  exact this

theorem runExtent_le_eight (cells : List Cell) (c : Cell) (dir : Dir) (t : Option Color)
    (k : Nat) (hb : IsBoard cells) (hc : c ∈ cells) (hd : dir ∈ directions)
    (h : RunExtent cells c.q c.r dir t k) : k ≤ 8 := by
  rcases Nat.eq_zero_or_pos k with h0 | hpos
  · omega
  · obtain ⟨n, hg, _⟩ := h.1 k hpos (le_refl k)
    obtain ⟨hm, hq, hr⟩ := getCellAt_mem hg
    have b1 := isBoard_mem_bounds hb hc
    have b2 := isBoard_mem_bounds hb hm
    rw [hq, hr] at b2
    simp only [directions, List.mem_cons, List.mem_singleton, List.not_mem_nil,
      or_false] at hd
    rcases hd with rfl | rfl | rfl | rfl | rfl | rfl <;> simp only at b2 <;> omega

theorem placeStone_cells (s : Game) (i : Nat) (c : Cell) (hc : s.cells[i]? = some c) :
    ∃ s1, placeStone s i = some s1 ∧ s1.cells = setState s.cells i none := by
  obtain ⟨three, four, _, _, hp⟩ := placeStone_spec s i c hc
  refine ⟨_, hp, ?_⟩
  cases three <;> cases four <;> simp [endGame]

theorem placeStone_none (s : Game) (i : Nat) (hc : s.cells[i]? = none) :
    placeStone s i = none := by
  have h1 : setState s.cells i (some s.currentPlayer) = s.cells := by
    simp [setState, hc]
  simp [placeStone, checkResult, h1, hc]

theorem validEmpty_emptyCellsOf (cells : List Cell) : ValidEmpty cells (emptyCellsOf cells) := by
  intro c hc
  unfold emptyCellsOf at hc
  rw [List.mem_filter] at hc
  obtain ⟨_, h⟩ := hc
  cases hg : cells[c]? with
  | none => simp [hg] at h
  | some cell =>
    simp only [hg, decide_eq_true_eq] at h
    exact ⟨cell, rfl, h⟩

theorem placeStone_empty_cells (s : Game) (i : Nat) (c : Cell) (hc : s.cells[i]? = some c)
    (he : c.state = none) :
    ∃ s1, placeStone s i = some s1 ∧ s1.cells = s.cells := by
  obtain ⟨s1, h1, h2⟩ := placeStone_cells s i c hc
  refine ⟨s1, h1, ?_⟩
  rw [h2, ← he]
  exact setState_eq_self s.cells i c hc

theorem onCellClick_cells (s s1 : Game) (i : Nat) (h : onCellClick s i = some s1) :
    s1.cells = s.cells := by
  unfold onCellClick at h
  split at h
  · cases h; rfl
  · cases hc : s.cells[i]? with
    | none => simp [hc] at h
    | some cell =>
      simp only [hc] at h
      split at h
      · cases h; rfl
      · next hne =>
        split at h
        · cases h; rfl
        · have he : cell.state = none := by simpa using hne
          obtain ⟨s2, h2, h3⟩ := placeStone_empty_cells s i cell hc he
          rw [h2] at h
          cases h
          exact h3

theorem npcLevel2_cells (cells : List Cell) (pc : Int) (m : Color) (l : List Nat)
    (rnd : Rand) (hv : ValidEmpty cells l) (r : Option Nat) (cells1 : List Cell)
    (h : npcLevel2 cells pc m l rnd = some (r, cells1)) :
    cells1 = cells ∧ ∀ c, r = some c → c ∈ l := by
  cases hown : l.find? (fun c => atLeastFourB cells c (some m)) with
  | some c =>
    rw [npcLevel2_own cells pc m l rnd c hv hown] at h
    simp only [Option.some.injEq, Prod.mk.injEq] at h
    obtain ⟨rfl, rfl⟩ := h
    exact ⟨rfl, fun c1 h1 => by cases h1; exact List.mem_of_find?_eq_some hown⟩
  | none =>
    cases hb : (getOpponents pc m).findSome?
        (fun opp => l.find? (fun c => atLeastFourB cells c (some opp))) with
    | some c =>
      obtain ⟨_, opp, _, _, hfind, _⟩ := List.findSome?_eq_some_iff.1 hb
      rw [npcLevel2_block cells pc m l rnd c hv hown hb] at h
      simp only [Option.some.injEq, Prod.mk.injEq] at h
      obtain ⟨rfl, rfl⟩ := h
      exact ⟨rfl, fun c1 h1 => by cases h1; exact List.mem_of_find?_eq_some hfind⟩
    | none =>
      rw [npcLevel2_rest cells pc m l rnd hv hown hb] at h
      split at h
      · cases hg : ((rankedSafe cells m l).take 3)[randomIndex rnd
            ((rankedSafe cells m l).take 3).length]? with
        | none =>
          rw [hg] at h
          simp at h
        | some e =>
          rw [hg] at h
          simp only [Option.some.injEq, Prod.mk.injEq] at h
          obtain ⟨rfl, rfl⟩ := h
          refine ⟨rfl, fun c1 h1 => ?_⟩
          cases h1
          have hmem : e ∈ rankedSafe cells m l :=
            List.mem_of_mem_take (List.getElem?_mem hg)
          exact (List.mem_filter.1 (rankedSafe_entry cells m l e hmem).1).1
      · simp only [Option.some.injEq, Prod.mk.injEq] at h
        obtain ⟨rfl, rfl⟩ := h
        exact ⟨rfl, fun c1 h1 => List.getElem?_mem h1⟩

theorem npcLevel1_cells (cells : List Cell) (m : Color) (l : List Nat)
    (rnd : Rand) (hv : ValidEmpty cells l) (r : Option Nat) (cells1 : List Cell)
    (h : npcLevel1 cells m l rnd = some (r, cells1)) :
    cells1 = cells ∧ ∀ c, r = some c → c ∈ l := by
  rw [npcLevel1_eq cells m l rnd hv] at h
  simp only [Option.some.injEq, Prod.mk.injEq] at h
  obtain ⟨rfl, rfl⟩ := h
  refine ⟨rfl, fun c h1 => ?_⟩
  split at h1
  · exact (List.mem_filter.1 (List.getElem?_mem h1)).1
  · exact List.getElem?_mem h1

theorem npcChoice_cells (s : Game) (rnd : Rand) (r : Option Nat) (cells1 : List Cell)
    (h : (if s.npcLevel = 1 then npcLevel1 s.cells s.currentPlayer (emptyCellsOf s.cells) rnd
        else if s.npcLevel = 2 then
          npcLevel2 s.cells s.playerCount s.currentPlayer (emptyCellsOf s.cells) rnd
        else if s.npcLevel = 3 then
          npcLevel3 s.cells s.playerCount s.currentPlayer (emptyCellsOf s.cells) rnd
        else npcLevel1 s.cells s.currentPlayer (emptyCellsOf s.cells) rnd)
      = some (r, cells1)) :
    cells1 = s.cells ∧ ∀ c, r = some c → c ∈ emptyCellsOf s.cells := by
  have hv := validEmpty_emptyCellsOf s.cells
  split at h
  · exact npcLevel1_cells _ _ _ rnd hv r cells1 h
  · split at h
    · exact npcLevel2_cells _ _ _ _ rnd hv r cells1 h
    · split at h
      · exact npcLevel2_cells _ _ _ _ rnd hv r cells1 h
      · exact npcLevel1_cells _ _ _ rnd hv r cells1 h

theorem npcChoice_total (s : Game) (rnd : Rand) (hd : IsDouble rnd)
    (hr : rnd.num < rnd.den)
    (hne : emptyCellsOf s.cells ≠ []) :
    ∃ c, (if s.npcLevel = 1 then
          npcLevel1 s.cells s.currentPlayer (emptyCellsOf s.cells) rnd
        else if s.npcLevel = 2 then
          npcLevel2 s.cells s.playerCount s.currentPlayer (emptyCellsOf s.cells) rnd
        else if s.npcLevel = 3 then
          npcLevel3 s.cells s.playerCount s.currentPlayer (emptyCellsOf s.cells) rnd
        else npcLevel1 s.cells s.currentPlayer (emptyCellsOf s.cells) rnd)
      = some (some c, s.cells) ∧ c ∈ emptyCellsOf s.cells := by
  have hv := validEmpty_emptyCellsOf s.cells
  split
  · exact npcLevel1_member _ _ _ rnd hv hd hr hne
  · split
    · exact npcLevel2_member _ _ _ _ rnd hv hd hr hne
    · split
      · exact npcLevel2_member _ _ _ _ rnd hv hd hr hne
      · exact npcLevel1_member _ _ _ rnd hv hd hr hne

theorem npcMove_cells (s s1 : Game) (rnd : Rand) (h : npcMove s rnd = some s1) :
    s1.cells = s.cells := by
  unfold npcMove at h
  split at h
  · cases h; rfl
  · simp only at h
    split at h
    · cases h; rfl
    · split at h
      · cases h
      · next bestCell cells1 hch =>
        obtain ⟨hcells, hmem⟩ := npcChoice_cells s rnd bestCell cells1 hch
        subst hcells
        cases bestCell with
        | none =>
          simp only [Option.some.injEq] at h
          subst h
          rfl
        | some c =>
          simp only at h
          obtain ⟨cell, hc, he⟩ := validEmpty_emptyCellsOf s.cells c (hmem c rfl)
          obtain ⟨s2, h2, h3⟩ := placeStone_empty_cells s c cell hc he
          have e : ({ s with cells := s.cells } : Game) = s := rfl
          rw [e, h2] at h
          cases h
          exact h3

theorem npcMove_total (s : Game) (rnd : Rand) (hd : IsDouble rnd)
    (hr : rnd.num < rnd.den) :
    ∃ s1, npcMove s rnd = some s1 := by
  unfold npcMove
  split
  · exact ⟨s, rfl⟩
  · simp only
    split
    · exact ⟨s, rfl⟩
    · next hlen =>
      have hne : emptyCellsOf s.cells ≠ [] := by
        intro h0
        apply hlen
        rw [h0]
        rfl
      obtain ⟨c, hch, hmem⟩ := npcChoice_total s rnd hd hr hne
      obtain ⟨cell, hc, he⟩ := validEmpty_emptyCellsOf s.cells c hmem
      obtain ⟨s2, h2, _⟩ := placeStone_empty_cells s c cell hc he
      rw [hch]
      exact ⟨s2, h2⟩

theorem onCellClick_total (s : Game) (i : Nat) (c : Cell) (hc : s.cells[i]? = some c) :
    ∃ s1, onCellClick s i = some s1 := by
  unfold onCellClick
  split
  · exact ⟨s, rfl⟩
  · simp only [hc]
    split
    · exact ⟨s, rfl⟩
    · split
      · exact ⟨s, rfl⟩
      · obtain ⟨s1, h1, _⟩ := placeStone_cells s i c hc
        exact ⟨s1, h1⟩

theorem reachable_cells (s : Game) (h : Reachable s) : s.cells = createBoard := by
  induction h with
  | restart s rnd => rfl
  | click s s1 i _ hstep ih => rw [onCellClick_cells s s1 i hstep, ih]
  | npc s s1 rnd _ hstep ih => rw [npcMove_cells s s1 rnd hstep, ih]

theorem isDouble_twelve_sixty_firsts : IsDouble ⟨885954025056491, 2 ^ 52⟩ :=
  isDouble_mk 885954025056491 1022 52 (by norm_num) rfl

theorem freshGame_all_safe :
    (emptyCellsOf freshGame.cells).filter
        (fun c => !exactlyThreeB freshGame.cells c (some Color.B))
      = List.range 61 := by
  decide

theorem freshGame_top_three :
    (rankedSafe freshGame.cells Color.B (emptyCellsOf freshGame.cells)).take 3
      = [⟨indexOf createBoard 4 0, 10⟩, ⟨indexOf createBoard 4 (-1), 9⟩,
          ⟨indexOf createBoard 3 0, 9⟩] := by
  decide

theorem npcLevel1_fresh_example (rnd : Rand) (h1 : rnd.num = 885954025056491)
    (h2 : rnd.den = 2 ^ 52) :
    npcLevel1 freshGame.cells Color.B (emptyCellsOf freshGame.cells) rnd
      = some (some 12, freshGame.cells) := by
  rw [npcLevel1_eq _ _ _ _ freshGame_valid, freshGame_all_safe]
  have hlen : (List.range 61).length = 61 := List.length_range 61
  rw [hlen, if_pos (by decide), randomIndex_twelve_sixty_firsts rnd h1 h2]
  rfl

theorem npcLevel2_fresh_example (rnd : Rand) (h1 : rnd.num = 6004799503160661)
    (h2 : rnd.den = 2 ^ 53) :
    npcLevel2 freshGame.cells 2 Color.B (emptyCellsOf freshGame.cells) rnd
      = some (some (indexOf createBoard 3 0), freshGame.cells) := by
  have hown : (emptyCellsOf freshGame.cells).find?
      (fun c => atLeastFourB freshGame.cells c (some Color.B)) = none := by
    rw [List.find?_eq_none]
    intro x hx
    simp [freshGame_no_four Color.B x hx]
  have hb : (getOpponents 2 Color.B).findSome? (fun opp =>
      (emptyCellsOf freshGame.cells).find?
        (fun c => atLeastFourB freshGame.cells c (some opp))) = none := by
    rw [List.findSome?_eq_none_iff]
    intro opp _
    rw [List.find?_eq_none]
    intro x hx
    simp [freshGame_no_four opp x hx]
  have hpos : (safeCellsOf freshGame.cells Color.B (emptyCellsOf freshGame.cells)).length > 0 := by
    unfold safeCellsOf
    rw [freshGame_all_safe]
    decide
  rw [npcLevel2_rest _ _ _ _ rnd freshGame_valid hown hb, if_pos hpos, freshGame_top_three]
  have hlen : ([⟨indexOf createBoard 4 0, 10⟩, ⟨indexOf createBoard 4 (-1), 9⟩,
      ⟨indexOf createBoard 3 0, 9⟩] : List Scored).length = 3 := rfl
  rw [hlen, randomIndex_two_thirds rnd h1 h2]
  rfl

/-! ## The claims -/

/-- C1 (code defect). `placeStone` does not leave the mover's color on the cell:
on the center cell (4, 0), empty in each of the three positions, the call
returns with that cell empty again, when the move wins (new game), when it
loses (`twoInRow`) and when the game continues (`crowded`). -/
theorem placeStone_leaves_cell_empty :
    (freshGame.gameOver = false ∧ twoInRow.gameOver = false ∧ crowded.gameOver = false) ∧
    (freshGame.cells[indexOf createBoard 4 0]? = some ⟨4, 0, none, 4, 4⟩ ∧
      twoInRow.cells[indexOf createBoard 4 0]? = some ⟨4, 0, none, 4, 4⟩ ∧
      crowded.cells[indexOf createBoard 4 0]? = some ⟨4, 0, none, 4, 4⟩) ∧
    (placeStone freshGame (indexOf createBoard 4 0)).map
        (fun s => (s.gameOver, s.messageClass, s.cells[indexOf createBoard 4 0]?))
      = some (true, MessageClass.plain, some ⟨4, 0, none, 4, 4⟩) ∧
    (placeStone twoInRow (indexOf createBoard 4 0)).map
        (fun s => (s.gameOver, s.messageClass, s.cells[indexOf createBoard 4 0]?))
      = some (true, MessageClass.lose, some ⟨4, 0, none, 4, 4⟩) ∧
    (placeStone crowded (indexOf createBoard 4 0)).map
        (fun s => (s.gameOver, s.messageClass, s.cells[indexOf createBoard 4 0]?))
      = some (false, MessageClass.plain, some ⟨4, 0, none, 4, 4⟩) := by
  decide

/-- C2. For a cell `c` of the board (empty, or not) and the mover
`m = s.currentPlayer`, `placeStone` returns, and the state it returns is a loss
(`gameOver` set, the message class 'lose', the turn still `m`) if and only if, on
the board with `c` holding `m`, some axis through `c` has a run of exactly 3
stones of `m` counting `c`; so it is a loss also when another axis has a run of
4 or more. -/
theorem placeStone_lose_iff (s : Game) (i : Nat) (c : Cell) (hc : s.cells[i]? = some c) :
    ∃ s1, placeStone s i = some s1 ∧
      ((s1.gameOver = true ∧ s1.messageClass = MessageClass.lose ∧
          s1.currentPlayer = s.currentPlayer) ↔
        ExactlyThree (setState s.cells i (some s.currentPlayer)) c.q c.r
          (some s.currentPlayer)) ∧
      (ExactlyThree (setState s.cells i (some s.currentPlayer)) c.q c.r
          (some s.currentPlayer) →
        AtLeastFour (setState s.cells i (some s.currentPlayer)) c.q c.r
          (some s.currentPlayer) →
        s1.gameOver = true ∧ s1.messageClass = MessageClass.lose ∧
          s1.currentPlayer = s.currentPlayer) := by
  have key : ExactlyThree (setState s.cells i (some s.currentPlayer)) c.q c.r
      (some s.currentPlayer) ↔ ExactlyThree s.cells c.q c.r (some s.currentPlayer) :=
    exactlyThree_setState s.cells i c _ _ hc
  obtain ⟨three, four, h3, _, hp⟩ := placeStone_spec s i c hc
  have hiff : ∀ s1, placeStone s i = some s1 →
      ((s1.gameOver = true ∧ s1.messageClass = MessageClass.lose ∧
          s1.currentPlayer = s.currentPlayer) ↔
        ExactlyThree (setState s.cells i (some s.currentPlayer)) c.q c.r
          (some s.currentPlayer)) := by
    intro s1 hs1
    rw [key]
    unfold ExactlyThree
    rw [← h3]
    rw [hp] at hs1
    cases three with
    | true =>
      simp only [if_true, Option.some.injEq] at hs1
      subst hs1
      simp [endGame]
    | false =>
      cases four with
      | true =>
        simp only [if_true, Option.some.injEq] at hs1
        subst hs1
        simp [endGame]
      | false =>
        simp only [Option.some.injEq] at hs1
        subst hs1
        simp [getNextPlayer_ne]
  exact ⟨_, hp, hiff _ hp, fun h _ => (hiff _ hp).2 h⟩

/-- C2, witness: in `twoInRow` (B on (2, 0) and (3, 0), B to move) the theorem
applies to the cell (4, 0). -/
theorem placeStone_lose_iff_witness :
    twoInRow.cells[indexOf createBoard 4 0]? = some ⟨4, 0, none, 4, 4⟩ ∧
    ∃ s1, placeStone twoInRow (indexOf createBoard 4 0) = some s1 ∧
      ((s1.gameOver = true ∧ s1.messageClass = MessageClass.lose ∧
          s1.currentPlayer = twoInRow.currentPlayer) ↔
        ExactlyThree
          (setState twoInRow.cells (indexOf createBoard 4 0) (some twoInRow.currentPlayer))
          (⟨4, 0, none, 4, 4⟩ : Cell).q (⟨4, 0, none, 4, 4⟩ : Cell).r
          (some twoInRow.currentPlayer)) ∧
      (ExactlyThree
          (setState twoInRow.cells (indexOf createBoard 4 0) (some twoInRow.currentPlayer))
          (⟨4, 0, none, 4, 4⟩ : Cell).q (⟨4, 0, none, 4, 4⟩ : Cell).r
          (some twoInRow.currentPlayer) →
        AtLeastFour
          (setState twoInRow.cells (indexOf createBoard 4 0) (some twoInRow.currentPlayer))
          (⟨4, 0, none, 4, 4⟩ : Cell).q (⟨4, 0, none, 4, 4⟩ : Cell).r
          (some twoInRow.currentPlayer) →
        s1.gameOver = true ∧ s1.messageClass = MessageClass.lose ∧
          s1.currentPlayer = twoInRow.currentPlayer) :=
  ⟨by decide,
    placeStone_lose_iff twoInRow (indexOf createBoard 4 0) ⟨4, 0, none, 4, 4⟩ (by decide)⟩
/-- C3 (code defect). `placeStone` does not decide the win by the mover's stones.
In a new game B places on the center (4, 0): with that stone on the board no axis
has a run of exactly 3 or of at least 4 B stones, yet the call ends the game with
a win for B.  In `fourReady` B places on (4, 0) next to B stones on (1, 0), (2, 0),
(3, 0): no axis has a run of exactly 3, one has a run of 4, yet the game stays in
progress and the turn passes to W. -/
theorem placeStone_win_not_by_four :
    (freshGame.cells[indexOf createBoard 4 0]? = some ⟨4, 0, none, 4, 4⟩ ∧
      ¬ ExactlyThree (setState freshGame.cells (indexOf createBoard 4 0) (some Color.B))
          4 0 (some Color.B) ∧
      ¬ AtLeastFour (setState freshGame.cells (indexOf createBoard 4 0) (some Color.B))
          4 0 (some Color.B) ∧
      (placeStone freshGame (indexOf createBoard 4 0)).map
          (fun s => (s.gameOver, s.winner, s.messageClass))
        = some (true, some Color.B, MessageClass.plain)) ∧
    (fourReady.cells[indexOf createBoard 4 0]? = some ⟨4, 0, none, 4, 4⟩ ∧
      ¬ ExactlyThree (setState fourReady.cells (indexOf createBoard 4 0) (some Color.B))
          4 0 (some Color.B) ∧
      AtLeastFour (setState fourReady.cells (indexOf createBoard 4 0) (some Color.B))
          4 0 (some Color.B) ∧
      (placeStone fourReady (indexOf createBoard 4 0)).map
          (fun s => (s.gameOver, s.winner, s.currentPlayer))
        = some (false, none, Color.W)) := by
  have h1 : (setState freshGame.cells (indexOf createBoard 4 0) (some Color.B))[
      indexOf createBoard 4 0]? = some ⟨4, 0, some Color.B, 4, 4⟩ := by decide
  have h2 : (setState fourReady.cells (indexOf createBoard 4 0) (some Color.B))[
      indexOf createBoard 4 0]? = some ⟨4, 0, some Color.B, 4, 4⟩ := by decide
  refine ⟨⟨by decide, ?_, ?_, by decide⟩, ⟨by decide, ?_, ?_, by decide⟩⟩
  · intro h
    have := (exactlyThree_iff _ _ _ (some Color.B) h1).1 h
    revert this
    decide
  · intro h
    have := (atLeastFour_iff _ _ _ (some Color.B) h1).1 h
    revert this
    decide
  · intro h
    have := (exactlyThree_iff _ _ _ (some Color.B) h2).1 h
    revert this
    decide
  · exact (atLeastFour_iff _ _ _ (some Color.B) h2).2 (by decide)

/-- C4 (code defect). The scenario B (2,0), W (2,-2), B (3,0), W (3,-2), B (5,0),
W (5,-2), B (4,0) from a new two-player game: the first click already ends the
game with a win for B (`gameOver` set, the turn not advanced), the six later
clicks are ignored, and the board is empty at the end. -/
theorem scenario_ends_at_first_click :
    freshGame.gameMode = GameMode.pvp ∧ freshGame.playerCount = 2 ∧
    freshGame.cells = createBoard ∧
    (onCellClick freshGame (indexOf createBoard 2 0)).map
        (fun s => (s.gameOver, s.winner, s.currentPlayer))
      = some (true, some Color.B, Color.B) ∧
    clickAll freshGame
        [indexOf createBoard 2 0, indexOf createBoard 2 (-2), indexOf createBoard 3 0,
          indexOf createBoard 3 (-2), indexOf createBoard 5 0, indexOf createBoard 5 (-2),
          indexOf createBoard 4 0]
      = onCellClick freshGame (indexOf createBoard 2 0) ∧
    (onCellClick freshGame (indexOf createBoard 2 0)).map (fun s => s.cells)
      = some createBoard := by
  decide
/-- C5. A click is rejected without any change of the game state when the game is
over or the cell is occupied, and `npcMove` changes nothing when the game is
over: each returns the state it was called in. -/
theorem illegal_move_rejected (s : Game) (rnd : Rand) :
    (s.gameOver = true → ∀ i, onCellClick s i = some s) ∧
    (∀ i c, s.cells[i]? = some c → c.state ≠ none → onCellClick s i = some s) ∧
    (s.gameOver = true → npcMove s rnd = some s) := by
  refine ⟨?_, ?_, ?_⟩
  · intro h i
    simp [onCellClick, h]
  · intro i c hc hne
    unfold onCellClick
    split
    · rfl
    · simp [hc, hne]
  · intro h
    simp [npcMove, h]

/-- C5, witness: the ended game (any click, and `npcMove`) and the occupied cell
(2, 0) of `twoInRow`, a game in progress. -/
theorem illegal_move_rejected_witness :
    (endedGame.gameOver = true ∧
      onCellClick endedGame (indexOf createBoard 4 0) = some endedGame ∧
      npcMove endedGame ⟨1, 2⟩ = some endedGame) ∧
    (twoInRow.gameOver = false ∧
      twoInRow.cells[indexOf createBoard 2 0]? = some ⟨2, 0, some Color.B, 4, 2⟩ ∧
      onCellClick twoInRow (indexOf createBoard 2 0) = some twoInRow) :=
  ⟨⟨by decide,
      (illegal_move_rejected endedGame ⟨1, 2⟩).1 (by decide) _,
      (illegal_move_rejected endedGame ⟨1, 2⟩).2.2 (by decide)⟩,
    ⟨by decide, by decide,
      (illegal_move_rejected twoInRow ⟨1, 2⟩).2.1 _ ⟨2, 0, some Color.B, 4, 2⟩
        (by decide) (by decide)⟩⟩

/-- C6. When `placeStone` returns with the game not over, the new `currentPlayer`
is `getNextPlayer` of the old one; `getNextPlayer` maps B to W and W to B with 2
players, and B to W, W to G, G to B with 3; in a run of placements from a
3-player state with B to move, none of which ends the game, the `k`-th placement
(from 0) is made by `[B, W, G][k % 3]`; the rotation comes back to the color it
started from after `playerCount` steps and not before; and two placements that do
not end the game, made with the same current color and player count, hand the
turn to the same color. -/
theorem turn_rotation :
    (∀ (s s1 : Game) (i : Nat), placeStone s i = some s1 → s1.gameOver = false →
      s1.currentPlayer = getNextPlayer s.playerCount s.currentPlayer) ∧
    (getNextPlayer 2 Color.B = Color.W ∧ getNextPlayer 2 Color.W = Color.B ∧
      getNextPlayer 3 Color.B = Color.W ∧ getNextPlayer 3 Color.W = Color.G ∧
      getNextPlayer 3 Color.G = Color.B) ∧
    (∀ (s : Game) (cells : List Nat) (states : List Game),
      placeAll s cells = some states → (∀ t ∈ states, t.gameOver = false) →
      s.currentPlayer = Color.B → s.playerCount = 3 →
      ∀ k, k < states.length →
        ((s :: states)[k]?).map (fun t => t.currentPlayer)
          = [Color.B, Color.W, Color.G][k % 3]?) ∧
    ((∀ x ∈ [Color.B, Color.W],
        (getNextPlayer 2)^[2] x = x ∧ (getNextPlayer 2)^[1] x ≠ x) ∧
      (∀ x : Color, (getNextPlayer 3)^[3] x = x ∧ (getNextPlayer 3)^[1] x ≠ x ∧
        (getNextPlayer 3)^[2] x ≠ x)) ∧
    (∀ (s t s1 t1 : Game) (i j : Nat), placeStone s i = some s1 → placeStone t j = some t1 →
      s1.gameOver = false → t1.gameOver = false →
      s.currentPlayer = t.currentPlayer → s.playerCount = t.playerCount →
      s1.currentPlayer = t1.currentPlayer) := by
  refine ⟨?_, by decide, ?_, ⟨by decide, ?_⟩, ?_⟩
  · intro s s1 i h hgo
    exact (placeStone_next s s1 i h hgo).1
  · intro s cells states h hgo hB h3 k hk
    rw [placeAll_movers s cells states h hgo k hk, hB, h3, iterate_three]
    have hm : k % 3 = 0 ∨ k % 3 = 1 ∨ k % 3 = 2 := by omega
    rcases hm with hm | hm | hm <;> simp [hm]
  · intro x
    cases x <;> decide
  · intro s t s1 t1 i j hs ht hgs hgt hc hp
    rw [(placeStone_next s s1 i hs hgs).1, (placeStone_next t t1 j ht hgt).1, hc, hp]

/-- C6, witness: in `crowded` (3 players, B to move) four placements on the center
cell follow one another without ending the game, made by B, W, G, B. -/
theorem turn_rotation_witness :
    crowded.currentPlayer = Color.B ∧ crowded.playerCount = 3 ∧
    ∃ states,
      placeAll crowded [indexOf createBoard 4 0, indexOf createBoard 4 0,
        indexOf createBoard 4 0, indexOf createBoard 4 0] = some states ∧
      states.length = 4 ∧ (∀ t ∈ states, t.gameOver = false) ∧
      (∀ k, k < states.length →
        ((crowded :: states)[k]?).map (fun t => t.currentPlayer)
          = [Color.B, Color.W, Color.G][k % 3]?) ∧
      (∀ t ∈ states, ∀ t1 i, placeStone t i = some t1 → t1.gameOver = false →
        t1.currentPlayer = getNextPlayer t.playerCount t.currentPlayer) := by
  have hsome : (placeAll crowded [indexOf createBoard 4 0, indexOf createBoard 4 0,
      indexOf createBoard 4 0, indexOf createBoard 4 0]).isSome = true := by decide
  obtain ⟨states, hst⟩ := Option.isSome_iff_exists.1 hsome
  have hall : (placeAll crowded [indexOf createBoard 4 0, indexOf createBoard 4 0,
      indexOf createBoard 4 0, indexOf createBoard 4 0]).map
        (fun l => l.map fun t => t.gameOver) = some [false, false, false, false] := by
    decide
  rw [hst] at hall
  simp only [Option.map_some', Option.some.injEq] at hall
  have hlen : states.length = 4 := by
    have := congrArg List.length hall
    simpa using this
  have hgo : ∀ t ∈ states, t.gameOver = false := by
    intro t ht
    have : t.gameOver ∈ states.map (fun t => t.gameOver) := List.mem_map_of_mem _ ht
    rw [hall] at this
    simpa using this
  exact ⟨by decide, by decide, states, hst, hlen, hgo,
    turn_rotation.2.2.1 crowded _ states hst hgo (by decide) (by decide),
    fun t _ t1 i h1 h2 => turn_rotation.1 t t1 i h1 h2⟩
/-- C7. For a cell `c` of the board, a color `x` and one of the six directions,
`countInDirection(c, d, x)` returns, and the value is `k` exactly when the cells
`c + j·d`, `1 ≤ j ≤ k`, are on the board with state `x` and `c + (k + 1)·d` is off
the board or in another state; there is exactly one such `k`; none of the cells
counted is `c`; the value is the same whatever the state of `c`; and the sum
over the two directions of an axis is defined and is the same whichever of the
two is counted first. -/
theorem countInDirection_run (cells : List Cell) (i : Nat) (c : Cell) (dir : Dir) (x : Color)
    (hc : cells[i]? = some c) (hd : dir ∈ directions) :
    (∃ k, countInDirection cells i dir (some x) = some k) ∧
    (∀ k, countInDirection cells i dir (some x) = some k ↔
      RunExtent cells c.q c.r dir (some x) k) ∧
    (∃! k, RunExtent cells c.q c.r dir (some x) k) ∧
    (∀ j : Nat, 1 ≤ j → ¬ (c.q + j * dir.dq = c.q ∧ c.r + j * dir.dr = c.r)) ∧
    (∀ v, countInDirection (setState cells i v) i dir (some x)
      = countInDirection cells i dir (some x)) ∧
    (∀ pr ∈ dirPairs, (∃ n, runLength cells i pr.1 pr.2 (some x) = some n) ∧
      runLength cells i pr.1 pr.2 (some x) = runLength cells i pr.2 pr.1 (some x)) := by
  have hnz := dir_ne_zero hd
  obtain ⟨k0, hk0⟩ := exists_runExtent cells c.q c.r dir (some x) hnz
  have hiff : ∀ k, countInDirection cells i dir (some x) = some k ↔
      RunExtent cells c.q c.r dir (some x) k :=
    fun k => countInDirection_iff cells i c dir (some x) k hc hnz
  refine ⟨⟨k0, (hiff k0).2 hk0⟩, hiff,
    ⟨k0, hk0, fun k hk => runExtent_unique cells c.q c.r dir (some x) k k0 hk hk0⟩,
    ?_, fun v => countInDirection_setState cells i c dir x v hc hnz, ?_⟩
  · intro j hj h
    apply step_ne_self dir hnz c.q c.r (j : Int) (by omega)
    exact ⟨h.1.symm, h.2.symm⟩
  · intro pr hpr
    obtain ⟨e1, e2⟩ := dirPairs_ne_zero hpr
    obtain ⟨a, ha⟩ := exists_runExtent cells c.q c.r pr.1 (some x) e1
    obtain ⟨b, hb⟩ := exists_runExtent cells c.q c.r pr.2 (some x) e2
    refine ⟨⟨a + b, ?_⟩, runLength_comm cells i pr.1 pr.2 (some x)⟩
    unfold runLength
    rw [countInDirection_of_runExtent cells i c pr.1 (some x) a hc e1 ha,
      countInDirection_of_runExtent cells i c pr.2 (some x) b hc e2 hb]

/-- C7, witness: in `twoInRow` the count of B stones from (4, 0) in direction
(-1, 0) is 2. -/
theorem countInDirection_run_witness :
    twoInRow.cells[indexOf createBoard 4 0]? = some ⟨4, 0, none, 4, 4⟩ ∧
    (⟨-1, 0⟩ : Dir) ∈ directions ∧
    countInDirection twoInRow.cells (indexOf createBoard 4 0) ⟨-1, 0⟩ (some Color.B) = some 2 ∧
    RunExtent twoInRow.cells 4 0 ⟨-1, 0⟩ (some Color.B) 2 :=
  ⟨by decide, by decide, by decide,
    ((countInDirection_run twoInRow.cells (indexOf createBoard 4 0) ⟨4, 0, none, 4, 4⟩
      ⟨-1, 0⟩ Color.B (by decide) (by decide)).2.1 2).1 (by decide)⟩
/-- C8. For a cell `c` of the board and a color `p`, `wouldMakeThree(c, p)` returns
true exactly when for some axis `1 + runLength = 3`, and `wouldMakeFour(c, p)`
returns true exactly when for some axis `1 + runLength ≥ 4`, the run lengths
being those of the `p` stones next to `c` on the board as it was before the call;
each value is the value of a function that only reads that board
(`exactlyThreeB`, `atLeastFourB`), and it does not depend on the state of `c`. -/
theorem wouldMake_value (cells : List Cell) (i : Nat) (c : Cell) (p : Color)
    (hc : cells[i]? = some c) :
    (∃ b cells1, wouldMakeThree cells i (some p) = some (b, cells1) ∧
      (b = true ↔ ExactlyThree cells c.q c.r (some p)) ∧
      b = exactlyThreeB cells i (some p)) ∧
    (∃ b cells1, wouldMakeFour cells i (some p) = some (b, cells1) ∧
      (b = true ↔ AtLeastFour cells c.q c.r (some p)) ∧
      b = atLeastFourB cells i (some p)) ∧
    (∀ v, (wouldMakeThree (setState cells i v) i (some p)).map Prod.fst
        = (wouldMakeThree cells i (some p)).map Prod.fst ∧
      (wouldMakeFour (setState cells i v) i (some p)).map Prod.fst
        = (wouldMakeFour cells i (some p)).map Prod.fst) := by
  obtain ⟨b3, h3, h3iff, h3B⟩ := wouldMakeThree_value cells i c p hc
  obtain ⟨b4, h4, h4iff, h4B⟩ := wouldMakeFour_value cells i c p hc
  refine ⟨⟨b3, _, h3, h3iff, h3B⟩, ⟨b4, _, h4, h4iff, h4B⟩, fun v => ?_⟩
  have hc1 := setState_getElem?_self cells i v c hc
  obtain ⟨b3', h3', h3iff', _⟩ := wouldMakeThree_value (setState cells i v) i _ p hc1
  obtain ⟨b4', h4', h4iff', _⟩ := wouldMakeFour_value (setState cells i v) i _ p hc1
  have e3 : b3' = b3 := by
    have : b3' = true ↔ b3 = true :=
      h3iff'.trans ((exactlyThree_setState cells i c v (some p) hc).trans h3iff.symm)
    cases b3 <;> cases b3' <;> simp_all
  have e4 : b4' = b4 := by
    have : b4' = true ↔ b4 = true :=
      h4iff'.trans ((atLeastFour_setState cells i c v (some p) hc).trans h4iff.symm)
    cases b4 <;> cases b4' <;> simp_all
  rw [h3, h4, h3', h4', e3, e4]
  exact ⟨rfl, rfl⟩

/-- C8, witness: in `twoInRow` the empty cell (4, 0) makes three for B and does
not make four. -/
theorem wouldMake_value_witness :
    twoInRow.cells[indexOf createBoard 4 0]? = some ⟨4, 0, none, 4, 4⟩ ∧
    (wouldMakeThree twoInRow.cells (indexOf createBoard 4 0) (some Color.B)).map Prod.fst
      = some true ∧
    (wouldMakeFour twoInRow.cells (indexOf createBoard 4 0) (some Color.B)).map Prod.fst
      = some false ∧
    ExactlyThree twoInRow.cells 4 0 (some Color.B) ∧
    ¬ AtLeastFour twoInRow.cells 4 0 (some Color.B) := by
  have h := wouldMake_value twoInRow.cells (indexOf createBoard 4 0) ⟨4, 0, none, 4, 4⟩
    Color.B (by decide)
  obtain ⟨⟨b3, c3, h3, h3iff, h3B⟩, ⟨b4, c4, h4, h4iff, h4B⟩, _⟩ := h
  have e3 : b3 = true := by rw [h3B]; decide
  have e4 : b4 = false := by rw [h4B]; decide
  refine ⟨by decide, by decide, by decide, h3iff.1 e3, fun hf => ?_⟩
  have := h4iff.2 hf
  rw [e4] at this
  cases this

/-- C9. When the cell is empty, the cells after `wouldMakeThree(cell, color)` and
after `wouldMakeFour(cell, color)` are the cells before the call. -/
theorem wouldMake_restores (cells : List Cell) (i : Nat) (c : Cell) (p : Color)
    (hc : cells[i]? = some c) (hempty : c.state = none) :
    (wouldMakeThree cells i (some p)).map Prod.snd = some cells ∧
    (wouldMakeFour cells i (some p)).map Prod.snd = some cells := by
  obtain ⟨b3, h3, _⟩ := wouldMakeThree_value cells i c p hc
  obtain ⟨b4, h4, _⟩ := wouldMakeFour_value cells i c p hc
  have e : setState cells i none = cells := by
    rw [← hempty]
    exact setState_eq_self cells i c hc
  rw [h3, h4, e]
  exact ⟨rfl, rfl⟩

/-- C9, witness: the empty cell (4, 0) of `twoInRow`, where `wouldMakeThree` for B
leaves its loop by the `break` at the first axis and `wouldMakeFour` falls
through all three. -/
theorem wouldMake_restores_witness :
    twoInRow.cells[indexOf createBoard 4 0]? = some ⟨4, 0, none, 4, 4⟩ ∧
    (⟨4, 0, none, 4, 4⟩ : Cell).state = none ∧
    wouldMakeThree twoInRow.cells (indexOf createBoard 4 0) (some Color.B)
      = some (true, twoInRow.cells) ∧
    wouldMakeFour twoInRow.cells (indexOf createBoard 4 0) (some Color.B)
      = some (false, twoInRow.cells) ∧
    (wouldMakeThree twoInRow.cells (indexOf createBoard 4 0) (some Color.B)).map Prod.snd
      = some twoInRow.cells ∧
    (wouldMakeFour twoInRow.cells (indexOf createBoard 4 0) (some Color.B)).map Prod.snd
      = some twoInRow.cells :=
  ⟨by decide, rfl, by decide, by decide,
    wouldMake_restores twoInRow.cells (indexOf createBoard 4 0) ⟨4, 0, none, 4, 4⟩ Color.B
      (by decide) rfl⟩

/-- C10, as stated, fails: called on the cell (2, 0) of `twoInRow`, which holds a B
stone, `wouldMakeThree` and `wouldMakeFour` return a boolean, and the cell is
empty afterwards. -/
theorem wouldMake_occupied_returns :
    twoInRow.cells[indexOf createBoard 2 0]? = some ⟨2, 0, some Color.B, 4, 2⟩ ∧
    (wouldMakeThree twoInRow.cells (indexOf createBoard 2 0) (some Color.W)).map
        (fun res => (res.1, res.2[indexOf createBoard 2 0]?))
      = some (false, some ⟨2, 0, none, 4, 2⟩) ∧
    (wouldMakeFour twoInRow.cells (indexOf createBoard 2 0) (some Color.W)).map
        (fun res => (res.1, res.2[indexOf createBoard 2 0]?))
      = some (false, some ⟨2, 0, none, 4, 2⟩) := by
  decide

/-- C10, amended. Called on a cell of the board that is not empty,
`wouldMakeThree(cell, player)` and `wouldMakeFour(cell, player)` return a boolean,
the one of the run test with the cell counted as a stone of `player`, and every
other cell of the board is as it was. -/
theorem wouldMake_occupied_frame (cells : List Cell) (i : Nat) (c : Cell) (p : Color)
    (hc : cells[i]? = some c) (_hocc : c.state ≠ none) :
    (∃ b cells1, wouldMakeThree cells i (some p) = some (b, cells1) ∧
      (b = true ↔ ExactlyThree cells c.q c.r (some p)) ∧
      cells1.length = cells.length ∧ ∀ j, j ≠ i → cells1[j]? = cells[j]?) ∧
    (∃ b cells1, wouldMakeFour cells i (some p) = some (b, cells1) ∧
      (b = true ↔ AtLeastFour cells c.q c.r (some p)) ∧
      cells1.length = cells.length ∧ ∀ j, j ≠ i → cells1[j]? = cells[j]?) := by
  obtain ⟨b3, h3, h3iff, _⟩ := wouldMakeThree_value cells i c p hc
  obtain ⟨b4, h4, h4iff, _⟩ := wouldMakeFour_value cells i c p hc
  obtain ⟨hl, hf⟩ := setState_frame cells i none
  exact ⟨⟨b3, _, h3, h3iff, hl, hf⟩, ⟨b4, _, h4, h4iff, hl, hf⟩⟩

/-- C10, witness: the occupied cell (2, 0) of `twoInRow`. -/
theorem wouldMake_occupied_frame_witness :
    twoInRow.cells[indexOf createBoard 2 0]? = some ⟨2, 0, some Color.B, 4, 2⟩ ∧
    (⟨2, 0, some Color.B, 4, 2⟩ : Cell).state ≠ none ∧
    (∃ b cells1, wouldMakeThree twoInRow.cells (indexOf createBoard 2 0) (some Color.W)
        = some (b, cells1) ∧
      (b = true ↔ ExactlyThree twoInRow.cells 2 0 (some Color.W)) ∧
      cells1.length = twoInRow.cells.length ∧
      ∀ j, j ≠ indexOf createBoard 2 0 → cells1[j]? = twoInRow.cells[j]?) ∧
    (∃ b cells1, wouldMakeFour twoInRow.cells (indexOf createBoard 2 0) (some Color.W)
        = some (b, cells1) ∧
      (b = true ↔ AtLeastFour twoInRow.cells 2 0 (some Color.W)) ∧
      cells1.length = twoInRow.cells.length ∧
      ∀ j, j ≠ indexOf createBoard 2 0 → cells1[j]? = twoInRow.cells[j]?) :=
  ⟨by decide, by decide,
    wouldMake_occupied_frame twoInRow.cells (indexOf createBoard 2 0)
      ⟨2, 0, some Color.B, 4, 2⟩ Color.W (by decide) (by decide)⟩

/-- C11. `createBoard` makes 61 cells, all empty, in rows of 5, 6, 7, 8, 9, 8, 7, 6, 5
cells, no two with the same `(q, r)`; `(q, r)` is the coordinate of a cell if and
only if `-4 ≤ r ≤ 4` and `max(0, -r) ≤ q ≤ min(8, 8 - r)`; for such a pair
`getCellAt(q, r)` returns the only cell with these coordinates, and for any other
pair it returns `undefined`. -/
theorem createBoard_layout :
    createBoard.length = 61 ∧
    (∀ c ∈ createBoard, c.state = none) ∧
    (List.range 9).map (fun row => (createBoard.filter fun c => decide (c.row = row)).length)
      = [5, 6, 7, 8, 9, 8, 7, 6, 5] ∧
    (createBoard.map fun c => (c.q, c.r)).Nodup ∧
    (∀ q r : Int, (∃ c ∈ createBoard, c.q = q ∧ c.r = r) ↔ InHexagon q r) ∧
    (∀ q r : Int, InHexagon q r →
      ∃ c, getCellAt createBoard q r = some c ∧ c ∈ createBoard ∧ c.q = q ∧ c.r = r ∧
        ∀ c1 ∈ createBoard, c1.q = q → c1.r = r → c1 = c) ∧
    (∀ q r : Int, ¬ InHexagon q r → getCellAt createBoard q r = none) := by
  have hfind : ∀ q r : Int, InHexagon q r →
      ∃ c, getCellAt createBoard q r = some c ∧ c ∈ createBoard ∧ c.q = q ∧ c.r = r ∧
        ∀ c1 ∈ createBoard, c1.q = q → c1.r = r → c1 = c := by
    intro q r h
    obtain ⟨c, hc⟩ := getCellAt_createBoard_of_inHexagon q r h
    obtain ⟨hm, hq, hr⟩ := getCellAt_mem hc
    refine ⟨c, hc, hm, hq, hr, fun c1 hm1 hq1 hr1 => ?_⟩
    exact createBoard_coords_unique c hm c1 hm1 (by rw [hq1, hq]) (by rw [hr1, hr])
  have hiff : ∀ q r : Int, (∃ c ∈ createBoard, c.q = q ∧ c.r = r) ↔ InHexagon q r := by
    intro q r
    constructor
    · rintro ⟨c, hm, rfl, rfl⟩
      exact createBoard_coords_inHexagon c hm
    · intro h
      obtain ⟨c, _, hm, hq, hr, _⟩ := hfind q r h
      exact ⟨c, hm, hq, hr⟩
  refine ⟨by decide, by decide, by decide, by decide, hiff, hfind, ?_⟩
  intro q r hn
  cases hg : getCellAt createBoard q r with
  | none => rfl
  | some c =>
    obtain ⟨hm, hq, hr⟩ := getCellAt_mem hg
    exact absurd ((hiff q r).1 ⟨c, hm, hq, hr⟩) hn

/-- C11, witness: the corner (0, 4) is a cell, (0, -1) is not. -/
theorem createBoard_layout_witness :
    InHexagon 0 4 ∧ ¬ InHexagon 0 (-1) ∧
    (∃ c, getCellAt createBoard 0 4 = some c ∧ c ∈ createBoard ∧ c.q = 0 ∧ c.r = 4 ∧
      ∀ c1 ∈ createBoard, c1.q = 0 → c1.r = 4 → c1 = c) ∧
    getCellAt createBoard 0 (-1) = none :=
  ⟨by decide, by decide, createBoard_layout.2.2.2.2.2.1 0 4 (by decide),
    createBoard_layout.2.2.2.2.2.2 0 (-1) (by decide)⟩

/-- C12. For a list `emptyCells` of empty cells of the board and a value of
`Math.random()` in `[0, 1)` (a binary64 number): if some cell of the list has `wouldMakeThree` false
for the mover, `npcLevel1` returns a cell of the list with `wouldMakeThree`
false; and when it returns a cell with `wouldMakeThree` true, every cell of the
list has `wouldMakeThree` true.  The board is left as it was. -/
theorem npcLevel1_avoids_three (cells : List Cell) (p : Color) (emptyCells : List Nat)
    (rnd : Rand) (hv : ValidEmpty cells emptyCells) (hd : IsDouble rnd)
    (hr : rnd.num < rnd.den) :
    ((∃ c ∈ emptyCells, wouldMakeThree cells c (some p) = some (false, cells)) →
      ∃ c, npcLevel1 cells p emptyCells rnd = some (some c, cells) ∧ c ∈ emptyCells ∧
        wouldMakeThree cells c (some p) = some (false, cells)) ∧
    (∀ c, npcLevel1 cells p emptyCells rnd = some (some c, cells) →
      wouldMakeThree cells c (some p) = some (true, cells) →
      ∀ x ∈ emptyCells, wouldMakeThree cells x (some p) = some (true, cells)) := by
  have hw : ∀ x ∈ emptyCells,
      wouldMakeThree cells x (some p) = some (exactlyThreeB cells x (some p), cells) := by
    intro x hx
    obtain ⟨cell, hc, he⟩ := hv x hx
    exact wouldMakeThree_empty cells x cell p hc he
  have hpick : ∀ safe : List Nat, 0 < safe.length →
      ∃ c, safe[randomIndex rnd safe.length]? = some c ∧ c ∈ safe := by
    intro safe hpos
    have hlt := randomIndex_lt rnd safe.length hd hr hpos
    exact ⟨safe[randomIndex rnd safe.length], List.getElem?_eq_getElem hlt,
      List.getElem_mem _⟩
  have first : (∃ c ∈ emptyCells, wouldMakeThree cells c (some p) = some (false, cells)) →
      ∃ c, npcLevel1 cells p emptyCells rnd = some (some c, cells) ∧ c ∈ emptyCells ∧
        wouldMakeThree cells c (some p) = some (false, cells) := by
    rintro ⟨c0, hc0, h0⟩
    rw [hw c0 hc0] at h0
    simp only [Option.some.injEq, Prod.mk.injEq, and_true] at h0
    have hmem : c0 ∈ emptyCells.filter (fun c => !exactlyThreeB cells c (some p)) := by
      rw [List.mem_filter]; exact ⟨hc0, by simp [h0]⟩
    have hpos : 0 < (emptyCells.filter (fun c => !exactlyThreeB cells c (some p))).length :=
      List.length_pos_of_mem hmem
    obtain ⟨c, hget, hcm⟩ := hpick _ hpos
    rw [List.mem_filter] at hcm
    refine ⟨c, ?_, hcm.1, ?_⟩
    · rw [npcLevel1_eq cells p emptyCells rnd hv, if_pos hpos, hget]
    · rw [hw c hcm.1]
      have : exactlyThreeB cells c (some p) = false := by simpa using hcm.2
      rw [this]
  refine ⟨first, ?_⟩
  intro c hres hthree x hx
  rw [hw x hx]
  cases hB : exactlyThreeB cells x (some p) with
  | true => rfl
  | false =>
    exfalso
    obtain ⟨c1, hres1, _, h1⟩ := first ⟨x, hx, by rw [hw x hx, hB]⟩
    rw [hres] at hres1
    simp only [Option.some.injEq, Prod.mk.injEq, and_true] at hres1
    subst hres1
    rw [hthree] at h1
    simp at h1

/-- C12, witness: in `twoInRow`, B to move, with all the empty cells of the board and
the value 0.19672131147540983 of `Math.random()`; (4, 0) is the cell B must avoid,
the corner (4, -4) is safe.  With the same value on the empty board the cell
returned is `emptyCells[12]`. -/
theorem npcLevel1_avoids_three_witness :
    ValidEmpty twoInRow.cells (emptyCellsOf twoInRow.cells) ∧
    IsDouble ⟨885954025056491, 2 ^ 52⟩ ∧ (885954025056491 : Nat) < 2 ^ 52 ∧
    wouldMakeThree twoInRow.cells (indexOf createBoard 4 0) (some Color.B)
      = some (true, twoInRow.cells) ∧
    (∃ c, npcLevel1 twoInRow.cells Color.B (emptyCellsOf twoInRow.cells)
          ⟨885954025056491, 2 ^ 52⟩
        = some (some c, twoInRow.cells) ∧
      c ∈ emptyCellsOf twoInRow.cells ∧
      wouldMakeThree twoInRow.cells c (some Color.B) = some (false, twoInRow.cells)) ∧
    npcLevel1 freshGame.cells Color.B (emptyCellsOf freshGame.cells)
        ⟨885954025056491, 2 ^ 52⟩
      = some (some 12, freshGame.cells) := by
  have hv : ValidEmpty twoInRow.cells (emptyCellsOf twoInRow.cells) := by
    unfold ValidEmpty
    decide
  have hlt : (885954025056491 : Nat) < 2 ^ 52 := by norm_num
  exact ⟨hv, isDouble_twelve_sixty_firsts, hlt, by decide,
    (npcLevel1_avoids_three twoInRow.cells Color.B (emptyCellsOf twoInRow.cells)
      ⟨885954025056491, 2 ^ 52⟩ hv isDouble_twelve_sixty_firsts hlt).1
      ⟨indexOf createBoard 4 (-4), by decide, by decide⟩,
    npcLevel1_fresh_example _ rfl rfl⟩

/-- C13. For a list `emptyCells` of empty cells of the board: if some cell of the
list has `wouldMakeFour` true for the mover, `npcLevel2` returns the first such
cell of the list, for every player count and every value of `Math.random()`; in
particular the only such cell, when there is exactly one. -/
theorem npcLevel2_takes_own_four (cells : List Cell) (pc : Int) (m : Color)
    (emptyCells : List Nat) (rnd : Rand) (hv : ValidEmpty cells emptyCells) :
    ((∃ c ∈ emptyCells, wouldMakeFour cells c (some m) = some (true, cells)) →
      ∃ c pre post, emptyCells = pre ++ c :: post ∧
        (∀ x ∈ pre, wouldMakeFour cells x (some m) = some (false, cells)) ∧
        wouldMakeFour cells c (some m) = some (true, cells) ∧
        npcLevel2 cells pc m emptyCells rnd = some (some c, cells)) ∧
    (∀ c ∈ emptyCells, wouldMakeFour cells c (some m) = some (true, cells) →
      (∀ x ∈ emptyCells, wouldMakeFour cells x (some m) = some (true, cells) → x = c) →
      npcLevel2 cells pc m emptyCells rnd = some (some c, cells)) := by
  have first : (∃ c ∈ emptyCells, wouldMakeFour cells c (some m) = some (true, cells)) →
      ∃ c pre post, emptyCells = pre ++ c :: post ∧
        (∀ x ∈ pre, wouldMakeFour cells x (some m) = some (false, cells)) ∧
        wouldMakeFour cells c (some m) = some (true, cells) ∧
        npcLevel2 cells pc m emptyCells rnd = some (some c, cells) := by
    intro h
    obtain ⟨c, pre, post, hl, hpre, hc, hf⟩ := find_four_first cells emptyCells hv m h
    exact ⟨c, pre, post, hl, hpre, hc, npcLevel2_own cells pc m emptyCells rnd c hv hf⟩
  refine ⟨first, fun c hc h4 huniq => ?_⟩
  obtain ⟨c1, pre, post, hl, _, hc1, hres⟩ := first ⟨c, hc, h4⟩
  have hm1 : c1 ∈ emptyCells := by rw [hl]; simp
  rw [← huniq c1 hm1 hc1]
  exact hres

/-- C13, witness: in `poisonedWin`, B to move, with all the empty cells of the board,
(4, 0) is the only cell that makes four for B, and it is the cell returned. -/
theorem npcLevel2_takes_own_four_witness :
    ValidEmpty poisonedWin.cells (emptyCellsOf poisonedWin.cells) ∧
    indexOf createBoard 4 0 ∈ emptyCellsOf poisonedWin.cells ∧
    wouldMakeFour poisonedWin.cells (indexOf createBoard 4 0) (some Color.B)
      = some (true, poisonedWin.cells) ∧
    npcLevel2 poisonedWin.cells 2 Color.B (emptyCellsOf poisonedWin.cells) ⟨1, 2⟩
      = some (some (indexOf createBoard 4 0), poisonedWin.cells) := by
  have hv := poisonedWin_valid
  refine ⟨hv, by decide, by decide, ?_⟩
  apply (npcLevel2_takes_own_four poisonedWin.cells 2 Color.B
    (emptyCellsOf poisonedWin.cells) ⟨1, 2⟩ hv).2 (indexOf createBoard 4 0)
    (by decide) (by decide)
  intro x hx h4
  exact poisonedWin_only_four_B x hx
    ((wouldMakeFour_valid poisonedWin.cells _ hv x hx Color.B true).1 h4)

/-- C14. For a list `emptyCells` of empty cells of the board in which no cell has
`wouldMakeFour` true for the mover: if some cell has `wouldMakeFour` true for an
opponent, `npcLevel2` returns the first cell of the list that has it for the
first opponent, in the order of `getOpponents`, for whom any cell has it, for
every value of `Math.random()`; `getOpponents` is the other color with 2 players
and B, W, G without the mover with 3. -/
theorem npcLevel2_blocks (cells : List Cell) (pc : Int) (m : Color)
    (emptyCells : List Nat) (rnd : Rand) (hv : ValidEmpty cells emptyCells)
    (hno : ∀ x ∈ emptyCells, wouldMakeFour cells x (some m) = some (false, cells)) :
    ((∃ opp ∈ getOpponents pc m, ∃ c ∈ emptyCells,
        wouldMakeFour cells c (some opp) = some (true, cells)) →
      ∃ opp c opre opost pre post,
        getOpponents pc m = opre ++ opp :: opost ∧
        (∀ o ∈ opre, ∀ x ∈ emptyCells, wouldMakeFour cells x (some o) = some (false, cells)) ∧
        emptyCells = pre ++ c :: post ∧
        (∀ x ∈ pre, wouldMakeFour cells x (some opp) = some (false, cells)) ∧
        wouldMakeFour cells c (some opp) = some (true, cells) ∧
        npcLevel2 cells pc m emptyCells rnd = some (some c, cells)) ∧
    (getOpponents 2 Color.B = [Color.W] ∧ getOpponents 2 Color.W = [Color.B] ∧
      getOpponents 3 Color.B = [Color.W, Color.G] ∧
      getOpponents 3 Color.W = [Color.B, Color.G] ∧
      getOpponents 3 Color.G = [Color.B, Color.W]) := by
  refine ⟨?_, by decide⟩
  rintro ⟨opp0, hopp0, c0, hc0, h0⟩
  have hown : emptyCells.find? (fun c => atLeastFourB cells c (some m)) = none := by
    rw [List.find?_eq_none]
    intro x hx
    have := (wouldMakeFour_valid cells emptyCells hv x hx m false).1 (hno x hx)
    simp [this]
  cases hb : (getOpponents pc m).findSome?
      (fun opp => emptyCells.find? (fun c => atLeastFourB cells c (some opp))) with
  | none =>
    exfalso
    rw [List.findSome?_eq_none_iff] at hb
    have h1 := hb opp0 hopp0
    rw [List.find?_eq_none] at h1
    exact h1 c0 hc0 ((wouldMakeFour_valid cells emptyCells hv c0 hc0 opp0 true).1 h0)
  | some c =>
    obtain ⟨opre, opp, opost, hol, hfind, hopre⟩ := List.findSome?_eq_some_iff.1 hb
    obtain ⟨hpc, pre, post, hl, hpre⟩ := List.find?_eq_some.1 hfind
    have hmem : ∀ x ∈ pre, x ∈ emptyCells := fun x hx => by rw [hl]; simp [hx]
    have hcm : c ∈ emptyCells := by rw [hl]; simp
    refine ⟨opp, c, opre, opost, pre, post, hol, ?_, hl, ?_, ?_,
      npcLevel2_block cells pc m emptyCells rnd c hv hown hb⟩
    · intro o ho x hx
      rw [wouldMakeFour_valid cells emptyCells hv x hx o false]
      have := hopre o ho
      rw [List.find?_eq_none] at this
      simpa using this x hx
    · intro x hx
      rw [wouldMakeFour_valid cells emptyCells hv x (hmem x hx) opp false]
      simpa using hpre x hx
    · rw [wouldMakeFour_valid cells emptyCells hv c hcm opp true]
      exact hpc

/-- C14, witness: in the position of `poisonedWin` with W to move in a 3-player game,
no cell makes four for W, (4, 0) makes four for B, the first opponent of W, and
(4, 0) is the cell returned. -/
theorem npcLevel2_blocks_witness :
    ValidEmpty poisonedWin.cells (emptyCellsOf poisonedWin.cells) ∧
    (∀ x ∈ emptyCellsOf poisonedWin.cells,
      wouldMakeFour poisonedWin.cells x (some Color.W) = some (false, poisonedWin.cells)) ∧
    npcLevel2 poisonedWin.cells 3 Color.W (emptyCellsOf poisonedWin.cells) ⟨1, 2⟩
      = some (some (indexOf createBoard 4 0), poisonedWin.cells) ∧
    ∃ opp c opre opost pre post,
      getOpponents 3 Color.W = opre ++ opp :: opost ∧
      (∀ o ∈ opre, ∀ x ∈ emptyCellsOf poisonedWin.cells,
        wouldMakeFour poisonedWin.cells x (some o) = some (false, poisonedWin.cells)) ∧
      emptyCellsOf poisonedWin.cells = pre ++ c :: post ∧
      (∀ x ∈ pre,
        wouldMakeFour poisonedWin.cells x (some opp) = some (false, poisonedWin.cells)) ∧
      wouldMakeFour poisonedWin.cells c (some opp) = some (true, poisonedWin.cells) ∧
      npcLevel2 poisonedWin.cells 3 Color.W (emptyCellsOf poisonedWin.cells) ⟨1, 2⟩
        = some (some c, poisonedWin.cells) := by
  have hv := poisonedWin_valid
  have hno : ∀ x ∈ emptyCellsOf poisonedWin.cells,
      wouldMakeFour poisonedWin.cells x (some Color.W) = some (false, poisonedWin.cells) :=
    fun x hx => (wouldMakeFour_valid poisonedWin.cells _ hv x hx Color.W false).2
      (poisonedWin_no_four_W x hx)
  have h := (npcLevel2_blocks poisonedWin.cells 3 Color.W (emptyCellsOf poisonedWin.cells)
    ⟨1, 2⟩ hv hno).1 ⟨Color.B, by decide, indexOf createBoard 4 0, by decide, by decide⟩
  refine ⟨hv, hno, ?_, h⟩
  obtain ⟨opp, c, opre, opost, pre, post, _, _, _, _, _, hres⟩ := h
  rw [hres]
  have hown : (emptyCellsOf poisonedWin.cells).find?
      (fun c => atLeastFourB poisonedWin.cells c (some Color.W)) = none := by
    rw [List.find?_eq_none]
    intro x hx
    simp [poisonedWin_no_four_W x hx]
  have hb : (getOpponents 3 Color.W).findSome? (fun opp =>
      (emptyCellsOf poisonedWin.cells).find?
        (fun c => atLeastFourB poisonedWin.cells c (some opp)))
      = some (indexOf createBoard 4 0) := by
    decide
  rw [npcLevel2_block poisonedWin.cells 3 Color.W _ ⟨1, 2⟩ _ hv hown hb] at hres
  exact hres.symm

/-- C15. For a list `emptyCells` of empty cells of the board in which no cell has
`wouldMakeFour` true for the mover or for an opponent and some cell has
`wouldMakeThree` false for the mover, and a value of `Math.random()` in `[0, 1)`
(a binary64 number): `npcLevel2` returns a safe cell, one of the first three entries of the safe
cells sorted by descending `getCenterScore`, ties kept in the order of
`emptyCells`; at most two safe cells have a strictly higher score than it. -/
theorem npcLevel2_top_three (cells : List Cell) (pc : Int) (m : Color)
    (emptyCells : List Nat) (rnd : Rand) (hv : ValidEmpty cells emptyCells)
    (hd : IsDouble rnd) (hr : rnd.num < rnd.den)
    (hno : ∀ x ∈ emptyCells, wouldMakeFour cells x (some m) = some (false, cells))
    (hnoOpp : ∀ opp ∈ getOpponents pc m, ∀ x ∈ emptyCells,
      wouldMakeFour cells x (some opp) = some (false, cells))
    (hsafe : ∃ c ∈ emptyCells, wouldMakeThree cells c (some m) = some (false, cells)) :
    ∃ c j, npcLevel2 cells pc m emptyCells rnd = some (some c, cells) ∧
      c ∈ emptyCells ∧ wouldMakeThree cells c (some m) = some (false, cells) ∧
      j < 3 ∧ ((rankedSafe cells m emptyCells)[j]?).map (fun e => e.cell) = some c ∧
      ((safeCellsOf cells m emptyCells).filter
        (fun x => decide (scoreAt cells x > scoreAt cells c))).length ≤ 2 ∧
      (∀ x, x ∈ safeCellsOf cells m emptyCells ↔
        x ∈ emptyCells ∧ wouldMakeThree cells x (some m) = some (false, cells)) ∧
      List.Sublist (safeCellsOf cells m emptyCells) emptyCells ∧
      (∀ x cell, cells[x]? = some cell → scoreAt cells x = getCenterScore cell) ∧
      (rankedSafe cells m emptyCells).Perm ((safeCellsOf cells m emptyCells).map fun x =>
        ({ cell := x, score := scoreAt cells x } : Scored)) ∧
      (rankedSafe cells m emptyCells).Sorted (fun a b => a.score ≥ b.score) ∧
      (∀ v : Int, (rankedSafe cells m emptyCells).filter (fun a => decide (a.score = v))
        = ((safeCellsOf cells m emptyCells).map fun x =>
            ({ cell := x, score := scoreAt cells x } : Scored)).filter
              (fun a => decide (a.score = v))) := by
  have hsafeIff : ∀ x, x ∈ safeCellsOf cells m emptyCells ↔
      x ∈ emptyCells ∧ wouldMakeThree cells x (some m) = some (false, cells) := by
    intro x
    unfold safeCellsOf
    rw [List.mem_filter]
    constructor
    · rintro ⟨hx, hb⟩
      refine ⟨hx, (wouldMakeThree_valid cells emptyCells hv x hx m false).2 ?_⟩
      simpa using hb
    · rintro ⟨hx, hw⟩
      have := (wouldMakeThree_valid cells emptyCells hv x hx m false).1 hw
      exact ⟨hx, by simp [this]⟩
  have hown : emptyCells.find? (fun c => atLeastFourB cells c (some m)) = none := by
    rw [List.find?_eq_none]
    intro x hx
    have := (wouldMakeFour_valid cells emptyCells hv x hx m false).1 (hno x hx)
    simp [this]
  have hb : (getOpponents pc m).findSome?
      (fun opp => emptyCells.find? (fun c => atLeastFourB cells c (some opp))) = none := by
    rw [List.findSome?_eq_none_iff]
    intro opp hopp
    rw [List.find?_eq_none]
    intro x hx
    have := (wouldMakeFour_valid cells emptyCells hv x hx opp false).1 (hnoOpp opp hopp x hx)
    simp [this]
  obtain ⟨c0, hc0, h0⟩ := hsafe
  have hpos : 0 < (safeCellsOf cells m emptyCells).length :=
    List.length_pos_of_mem ((hsafeIff c0).2 ⟨hc0, h0⟩)
  have hlen : (rankedSafe cells m emptyCells).length
      = (safeCellsOf cells m emptyCells).length := by
    unfold rankedSafe
    rw [(sortScored_perm _).length_eq, List.length_map]
  have htake : ((rankedSafe cells m emptyCells).take 3).length
      = min 3 (rankedSafe cells m emptyCells).length := List.length_take _ _
  have hmin1 := Nat.min_le_left 3 (rankedSafe cells m emptyCells).length
  have hmin2 := Nat.min_le_right 3 (rankedSafe cells m emptyCells).length
  have htop : 0 < ((rankedSafe cells m emptyCells).take 3).length := by
    rw [htake, hlen]
    exact Nat.lt_min.2 ⟨by omega, hpos⟩
  have hri := randomIndex_lt rnd _ hd hr htop
  have hri3 : randomIndex rnd ((rankedSafe cells m emptyCells).take 3).length < 3 := by
    omega
  have hriLen : randomIndex rnd ((rankedSafe cells m emptyCells).take 3).length
      < (rankedSafe cells m emptyCells).length := by
    omega
  have hget : ((rankedSafe cells m emptyCells).take 3)[randomIndex rnd
      ((rankedSafe cells m emptyCells).take 3).length]?
      = some ((rankedSafe cells m emptyCells)[randomIndex rnd
        ((rankedSafe cells m emptyCells).take 3).length]) := by
    rw [List.getElem?_take_of_lt hri3, List.getElem?_eq_getElem hriLen]
  obtain ⟨hmem, hscore⟩ := rankedSafe_entry cells m emptyCells _ (List.getElem_mem hriLen)
  have hcount := higher_count_le cells m emptyCells _ hriLen
  rw [hscore] at hcount
  refine ⟨_, randomIndex rnd ((rankedSafe cells m emptyCells).take 3).length, ?_,
    ((hsafeIff _).1 hmem).1, ((hsafeIff _).1 hmem).2, hri3, ?_, by omega, hsafeIff,
    List.filter_sublist _, ?_, sortScored_perm _, sortScored_sorted _,
    fun v => sortScored_stable _ v⟩
  · rw [npcLevel2_rest cells pc m emptyCells rnd hv hown hb, if_pos hpos, hget]
  · rw [List.getElem?_eq_getElem hriLen]; rfl
  · intro x cell hx
    simp [scoreAt, hx]

/-- C15, witness: the new game, B to move, with all 61 cells and the value
0.6666666666666666 of `Math.random()`; the cell returned is (3, 0), the third
entry of the ranking. -/
theorem npcLevel2_top_three_witness :
    ValidEmpty freshGame.cells (emptyCellsOf freshGame.cells) ∧
    IsDouble ⟨6004799503160661, 2 ^ 53⟩ ∧ (6004799503160661 : Nat) < 2 ^ 53 ∧
    (∀ x ∈ emptyCellsOf freshGame.cells,
      wouldMakeFour freshGame.cells x (some Color.B) = some (false, freshGame.cells)) ∧
    (∀ opp ∈ getOpponents 2 Color.B, ∀ x ∈ emptyCellsOf freshGame.cells,
      wouldMakeFour freshGame.cells x (some opp) = some (false, freshGame.cells)) ∧
    (∃ c j, npcLevel2 freshGame.cells 2 Color.B (emptyCellsOf freshGame.cells)
          ⟨6004799503160661, 2 ^ 53⟩
        = some (some c, freshGame.cells) ∧
      c ∈ emptyCellsOf freshGame.cells ∧
      wouldMakeThree freshGame.cells c (some Color.B) = some (false, freshGame.cells) ∧
      j < 3 ∧
      ((rankedSafe freshGame.cells Color.B (emptyCellsOf freshGame.cells))[j]?).map
        (fun e => e.cell) = some c ∧
      ((safeCellsOf freshGame.cells Color.B (emptyCellsOf freshGame.cells)).filter
        (fun x => decide (scoreAt freshGame.cells x > scoreAt freshGame.cells c))).length
        ≤ 2) ∧
    npcLevel2 freshGame.cells 2 Color.B (emptyCellsOf freshGame.cells)
        ⟨6004799503160661, 2 ^ 53⟩
      = some (some (indexOf createBoard 3 0), freshGame.cells) := by
  have hv := freshGame_valid
  have hlt : (6004799503160661 : Nat) < 2 ^ 53 := by norm_num
  have hno : ∀ p : Color, ∀ x ∈ emptyCellsOf freshGame.cells,
      wouldMakeFour freshGame.cells x (some p) = some (false, freshGame.cells) :=
    fun p x hx => (wouldMakeFour_valid freshGame.cells _ hv x hx p false).2
      (freshGame_no_four p x hx)
  obtain ⟨c, j, h1, h2, h3, h4, h5, h6, _⟩ :=
    npcLevel2_top_three freshGame.cells 2 Color.B (emptyCellsOf freshGame.cells)
      ⟨6004799503160661, 2 ^ 53⟩ hv isDouble_two_thirds hlt (hno Color.B)
      (fun opp _ => hno opp) ⟨indexOf createBoard 4 0, by decide, by decide⟩
  exact ⟨hv, isDouble_two_thirds, hlt, hno Color.B, fun opp _ => hno opp,
    ⟨c, j, h1, h2, h3, h4, h5, h6⟩, npcLevel2_fresh_example _ rfl rfl⟩

/-- C16, as stated, fails: the cells (6, 1) and (2, 2) of the board have scores 7 and
6, but (2, 2) is two steps from the center and (6, 1) is more than two steps from
it, so the cell with the higher score is not at least as close. -/
theorem centerScore_not_hex_closer :
    createBoard[indexOf createBoard 6 1]? = some ⟨6, 1, none, 5, 6⟩ ∧
    createBoard[indexOf createBoard 2 2]? = some ⟨2, 2, none, 6, 2⟩ ∧
    getCenterScore ⟨6, 1, none, 5, 6⟩ > getCenterScore ⟨2, 2, none, 6, 2⟩ ∧
    WithinSteps 2 2 2 ∧ ¬ WithinSteps 2 6 1 ∧
    ¬ AtLeastAsClose ⟨6, 1, none, 5, 6⟩ ⟨2, 2, none, 6, 2⟩ := by
  have hb : WithinSteps 2 2 2 := ⟨[⟨-1, 1⟩, ⟨-1, 1⟩], by decide, by decide, by decide⟩
  have ha : ¬ WithinSteps 2 6 1 := by
    rintro ⟨steps, hlen, hdir, hw⟩
    have := walk_sum_bound (4, 0) steps hdir
    rw [hw] at this
    simp only at this
    omega
  exact ⟨by decide, by decide, by decide, hb, ha, fun h => ha (h 2 hb)⟩

/-- C16, amended. For two cells `a` and `b`, `getCenterScore(a) > getCenterScore(b)`
implies that `a` is strictly closer to the center (4, 0) than `b` in the distance
`|q - 4| + |r|`, and that `a` is within `2·n - 1` steps of the center along the six
neighbor directions whenever `b` is within `n` steps. -/
theorem centerScore_closer (a b : Cell) (h : getCenterScore a > getCenterScore b) :
    |a.q - 4| + |a.r| < |b.q - 4| + |b.r| ∧
    ∀ n, WithinSteps n b.q b.r → WithinSteps (2 * n - 1) a.q a.r := by
  have hlt : |a.q - 4| + |a.r| < |b.q - 4| + |b.r| := by
    unfold getCenterScore at h
    linarith
  refine ⟨hlt, fun n hn => ?_⟩
  obtain ⟨steps, hlen, hdir, hw⟩ := hn
  have hb := walk_manhattan_bound (4, 0) steps hdir
  rw [hw] at hb
  simp only [sub_self, abs_zero, add_zero, zero_add] at hb
  have h0a : 0 ≤ |a.q - 4| + |a.r| := add_nonneg (abs_nonneg _) (abs_nonneg _)
  apply withinSteps_mono (withinSteps_manhattan a.q a.r)
  have hl : (steps.length : Int) ≤ n := by exact_mod_cast hlen
  omega

/-- C16, witness: the cells (6, 1) and (2, 2), with scores 7 and 6. -/
theorem centerScore_closer_witness :
    getCenterScore ⟨6, 1, none, 5, 6⟩ > getCenterScore ⟨2, 2, none, 6, 2⟩ ∧
    |(6 : Int) - 4| + |(1 : Int)| < |(2 : Int) - 4| + |(2 : Int)| ∧
    (WithinSteps 2 2 2 → WithinSteps 3 6 1) :=
  ⟨by decide,
    (centerScore_closer ⟨6, 1, none, 5, 6⟩ ⟨2, 2, none, 6, 2⟩ (by decide)).1,
    (centerScore_closer ⟨6, 1, none, 5, 6⟩ ⟨2, 2, none, 6, 2⟩ (by decide)).2 2⟩

/-- C17. For a non-empty list `emptyCells` of empty cells of the board and a value
of `Math.random()` in `[0, 1)` (a binary64 number), each of `npcLevel1`, `npcLevel2` and `npcLevel3`
returns an element of `emptyCells` (a cell of the board whose state is empty,
never `undefined`), and `npcLevel3` returns what `npcLevel2` returns. -/
theorem npcLevels_return_empty_cell (cells : List Cell) (pc : Int) (m : Color)
    (emptyCells : List Nat) (rnd : Rand) (hv : ValidEmpty cells emptyCells)
    (hd : IsDouble rnd) (hr : rnd.num < rnd.den) (hne : emptyCells ≠ []) :
    (∃ c cell, npcLevel1 cells m emptyCells rnd = some (some c, cells) ∧ c ∈ emptyCells ∧
      cells[c]? = some cell ∧ cell.state = none) ∧
    (∃ c cell, npcLevel2 cells pc m emptyCells rnd = some (some c, cells) ∧ c ∈ emptyCells ∧
      cells[c]? = some cell ∧ cell.state = none) ∧
    (∃ c cell, npcLevel3 cells pc m emptyCells rnd = some (some c, cells) ∧ c ∈ emptyCells ∧
      cells[c]? = some cell ∧ cell.state = none) ∧
    npcLevel3 cells pc m emptyCells rnd = npcLevel2 cells pc m emptyCells rnd := by
  obtain ⟨c1, h1, hm1⟩ := npcLevel1_member cells m emptyCells rnd hv hd hr hne
  obtain ⟨c2, h2, hm2⟩ := npcLevel2_member cells pc m emptyCells rnd hv hd hr hne
  obtain ⟨cell1, hc1, he1⟩ := hv c1 hm1
  obtain ⟨cell2, hc2, he2⟩ := hv c2 hm2
  exact ⟨⟨c1, cell1, h1, hm1, hc1, he1⟩, ⟨c2, cell2, h2, hm2, hc2, he2⟩,
    ⟨c2, cell2, h2, hm2, hc2, he2⟩, rfl⟩

/-- C17, witness: `twoInRow`, B to move, with all the empty cells of the board and the
value 1/2 of `Math.random()`. -/
theorem npcLevels_return_empty_cell_witness :
    ValidEmpty twoInRow.cells (emptyCellsOf twoInRow.cells) ∧
    IsDouble ⟨1, 2⟩ ∧ (1 : Nat) < 2 ∧ emptyCellsOf twoInRow.cells ≠ [] ∧
    (∃ c cell, npcLevel1 twoInRow.cells Color.B (emptyCellsOf twoInRow.cells) ⟨1, 2⟩
        = some (some c, twoInRow.cells) ∧
      c ∈ emptyCellsOf twoInRow.cells ∧ twoInRow.cells[c]? = some cell ∧ cell.state = none) ∧
    (∃ c cell, npcLevel2 twoInRow.cells 2 Color.B (emptyCellsOf twoInRow.cells) ⟨1, 2⟩
        = some (some c, twoInRow.cells) ∧
      c ∈ emptyCellsOf twoInRow.cells ∧ twoInRow.cells[c]? = some cell ∧ cell.state = none) ∧
    npcLevel3 twoInRow.cells 2 Color.B (emptyCellsOf twoInRow.cells) ⟨1, 2⟩
      = npcLevel2 twoInRow.cells 2 Color.B (emptyCellsOf twoInRow.cells) ⟨1, 2⟩ := by
  have hv : ValidEmpty twoInRow.cells (emptyCellsOf twoInRow.cells) := by
    unfold ValidEmpty
    decide
  have h := npcLevels_return_empty_cell twoInRow.cells 2 Color.B
    (emptyCellsOf twoInRow.cells) ⟨1, 2⟩ hv isDouble_half (by decide) (by decide)
  exact ⟨hv, isDouble_half, by decide, by decide, h.1, h.2.1, h.2.2.2⟩

/-- C18. On the board with any assignment of states, for every cell, every color
argument (a color, or `null`) and each of the six directions, the loop of
`countInDirection` reaches its `break`: with any fuel above the count it returns
the count, and the count is at most 8. -/
theorem countInDirection_terminates (cells : List Cell) (i : Nat) (c : Cell) (dir : Dir)
    (color : Option Color) (hb : IsBoard cells) (hc : cells[i]? = some c)
    (hd : dir ∈ directions) :
    ∃ k, k ≤ 8 ∧ countInDirection cells i dir color = some k ∧
      ∀ fuel, k < fuel →
        countLoop cells dir (targetOf color c) fuel (c.q + dir.dq) (c.r + dir.dr) 0
          = some k := by
  have hnz := dir_ne_zero hd
  obtain ⟨k, hk⟩ := exists_runExtent cells c.q c.r dir (targetOf color c) hnz
  have hmem : c ∈ cells := List.getElem?_mem hc
  refine ⟨k, runExtent_le_eight cells c dir _ k hb hmem hd hk,
    countInDirection_of_runExtent cells i c dir color k hc hnz hk, fun fuel hf => ?_⟩
  have h := (runExtent_iff cells c.q c.r dir (targetOf color c) k).1 hk
  have := countLoop_some cells dir (targetOf color c) k fuel (c.q + dir.dq) (c.r + dir.dr) 0
    hf h.1 h.2
  simpa using this

/-- C18, witness: on the empty board, from the cell (0, 0) in direction (1, 0) with
color `null`, the count is 8. -/
theorem countInDirection_terminates_witness :
    IsBoard createBoard ∧ createBoard[indexOf createBoard 0 0]? = some ⟨0, 0, none, 4, 0⟩ ∧
    (⟨1, 0⟩ : Dir) ∈ directions ∧
    countInDirection createBoard (indexOf createBoard 0 0) ⟨1, 0⟩ none = some 8 ∧
    ∃ k, k ≤ 8 ∧ countInDirection createBoard (indexOf createBoard 0 0) ⟨1, 0⟩ none = some k ∧
      ∀ fuel, k < fuel →
        countLoop createBoard ⟨1, 0⟩ (targetOf none ⟨0, 0, none, 4, 0⟩) fuel
          ((⟨0, 0, none, 4, 0⟩ : Cell).q + (⟨1, 0⟩ : Dir).dq)
          ((⟨0, 0, none, 4, 0⟩ : Cell).r + (⟨1, 0⟩ : Dir).dr) 0 = some k :=
  ⟨by decide, by decide, by decide, by decide,
    countInDirection_terminates createBoard (indexOf createBoard 0 0) ⟨0, 0, none, 4, 0⟩
      ⟨1, 0⟩ none (by decide) (by decide) (by decide)⟩

/-- C19. In every state reached from `restart()` by calls of `onCellClick` and
`npcMove`, the cells are the 61 cells of `createBoard`, all with state `null`; from
such a state every click on a cell and every `npcMove` (with a binary64 value of
`Math.random()` in `[0, 1)`) returns, again with all cells `null`; and `placeStone`
on a cell returns with that cell's state `null`. -/
theorem reachable_board_empty (s : Game) (h : Reachable s) :
    s.cells = createBoard ∧ s.cells.length = 61 ∧ (∀ cell ∈ s.cells, cell.state = none) ∧
    (∀ i, i < 61 → ∃ s1, onCellClick s i = some s1 ∧ s1.cells = createBoard) ∧
    (∀ rnd : Rand, IsDouble rnd → rnd.num < rnd.den → ∃ s1, npcMove s rnd = some s1 ∧
      s1.cells = createBoard) ∧
    (∀ i c, s.cells[i]? = some c →
      ∃ s1, placeStone s i = some s1 ∧ s1.cells[i]? = some { c with state := none }) := by
  have hcells := reachable_cells s h
  have hlen : s.cells.length = 61 := by rw [hcells]; decide
  refine ⟨hcells, hlen, ?_, ?_, ?_, ?_⟩
  · rw [hcells]; decide
  · intro i hi
    have hi' : i < s.cells.length := by omega
    obtain ⟨s1, h1⟩ := onCellClick_total s i s.cells[i] (List.getElem?_eq_getElem hi')
    exact ⟨s1, h1, by rw [onCellClick_cells s s1 i h1, hcells]⟩
  · intro rnd hd hr
    obtain ⟨s1, h1⟩ := npcMove_total s rnd hd hr
    exact ⟨s1, h1, by rw [npcMove_cells s s1 rnd h1, hcells]⟩
  · intro i c hc
    obtain ⟨s1, h1, h2⟩ := placeStone_cells s i c hc
    exact ⟨s1, h1, by rw [h2]; exact setState_getElem?_self s.cells i none c hc⟩

/-- C19, witness: the new game, and the state after a click on its center cell. -/
theorem reachable_board_empty_witness :
    Reachable freshGame ∧ freshGame.cells = createBoard ∧
    ∃ s1, onCellClick freshGame (indexOf createBoard 4 0) = some s1 ∧ Reachable s1 ∧
      s1.gameOver = true ∧ s1.cells = createBoard ∧
      (∀ cell ∈ s1.cells, cell.state = none) := by
  have h0 : Reachable freshGame := Reachable.restart _ _
  have hsome : (onCellClick freshGame (indexOf createBoard 4 0)).isSome = true := by decide
  obtain ⟨s1, hs1⟩ := Option.isSome_iff_exists.1 hsome
  have h1 : Reachable s1 := Reachable.click freshGame s1 _ h0 hs1
  have hgo : (onCellClick freshGame (indexOf createBoard 4 0)).map (fun t => t.gameOver)
      = some true := by decide
  rw [hs1] at hgo
  simp only [Option.map_some', Option.some.injEq] at hgo
  exact ⟨h0, (reachable_board_empty freshGame h0).1, s1, hs1, h1, hgo,
    (reachable_board_empty s1 h1).1, (reachable_board_empty s1 h1).2.2.1⟩

/-- C20. There is a board, a mover and the list of the board's empty cells for which
`npcLevel2` returns, by its own-win rule, a cell that `checkResult` scores as a
loss for the mover, although safe cells exist: with B on (1, 0), (2, 0), (3, 0),
(4, 1), (4, 2), W on (0, 0) and B to move, the cell returned is (4, 0), which makes
four and also makes three for B. -/
theorem npcLevel2_picks_losing_four :
    ∃ (cells : List Cell) (m : Color) (emptyCells : List Nat) (c : Nat),
      cells = poisonedWin.cells ∧ m = Color.B ∧ c = indexOf createBoard 4 0 ∧
      IsBoard cells ∧ emptyCells = emptyCellsOf cells ∧
      (∀ (pc : Int) (rnd : Rand), npcLevel2 cells pc m emptyCells rnd = some (some c, cells)) ∧
      wouldMakeFour cells c (some m) = some (true, cells) ∧
      wouldMakeThree cells c (some m) = some (true, cells) ∧
      (checkResult (setState cells c (some m)) c).map Prod.fst = some (some Result.lose) ∧
      (placeStone poisonedWin c).map (fun s => (s.gameOver, s.messageClass))
        = some (true, MessageClass.lose) ∧
      ∃ x ∈ emptyCells, wouldMakeThree cells x (some m) = some (false, cells) := by
  refine ⟨poisonedWin.cells, Color.B, emptyCellsOf poisonedWin.cells, indexOf createBoard 4 0,
    rfl, rfl, rfl, by decide, rfl, ?_, by decide, by decide, by decide, by decide,
    indexOf createBoard 4 (-4), by decide, by decide⟩
  intro pc rnd
  exact npcLevel2_own poisonedWin.cells pc Color.B _ rnd _ poisonedWin_valid (by decide)

end Yavalath
